import Mathlib

/-!
A shallow embedding of the SPED record parsing and hierarchical consolidation
engine (src/sped_parser.py, src/metrics.py, src/exceptions.py), with theorems
settling the frozen claims about it.

Modelling conventions:
* Python strings are `String`, lists are `List`, dicts keyed by strings are
  association lists `List (String × _)` in insertion order (lookup by key),
  except the two counter dicts `self.indices` and the per-code row store
  `self.rows`, which are modelled as total functions `String → Int` and
  `String → List Row`: the source seeds every key it ever reads at `-1`
  (resp. `[]`) and uses `dict.get(key, -1)` / pre-seeded entries, so the
  total-function view with those defaults is observably identical.
* Machine floats of the numeric/locale converter are modelled as `ℚ`
  (`Option ℚ` with `none` for pandas `NaN`).
* pandas DataFrames are rectangular tables of `Option String` cells
  (`none` = missing value `NaN`); `merge(how := left)` is modelled on the
  single-join-key form the source uses.
* Exceptions become `Except`: `SpedParseError` carries the same fields and
  message text as `exceptions.py`.
-/

/-! ## Line tokenizer (parse_sped_line) -/

/-- Python `line.rstrip(chars)` for the char set `"\r\n"`. -/
def rstripNewlines (s : String) : String :=
  String.mk ((s.data.reverse.dropWhile (fun c => c == '\r' || c == '\n')).reverse)

/-- Python `str.split` with separator `'|'` (non-empty separator semantics). -/
def splitPipe : List Char → List (List Char)
  | [] => [[]]
  | c :: cs =>
    let r := splitPipe cs
    if c = '|' then [] :: r
    else
      match r with
      | [] => [[c]]
      | h :: t => (c :: h) :: t

/-- `parse_sped_line` from src/sped_parser.py: strip trailing `\r\n`, split on
`'|'`, drop a leading empty segment and a trailing empty segment. -/
def parse_sped_line (line : String) : List String :=
  let parts := (splitPipe (rstripNewlines line).data).map String.mk
  let parts :=
    match parts with
    | "" :: rest => rest
    | l => l
  match parts.getLast? with
  | some "" => parts.dropLast
  | _ => parts

/-! ## Layout registry (LAYOUTS) -/

/-- The `LAYOUTS` dict of src/sped_parser.py, in insertion order:
record code ↦ ordered field names. -/
def LAYOUTS_L : List (String × List String) := [
  ("C010", ["REG", "CNPJ", "IND_ESCRI"]),
  ("C100", ["REG", "IND_OPER", "IND_EMIT", "COD_PART", "COD_MOD", "COD_SIT", "SER", "NUM_DOC",
    "CHV_NFE", "DT_DOC", "DT_E_S", "VL_DOC", "IND_PGTO", "VL_DESC", "VL_ABAT_NT",
    "VL_MERC", "IND_FRT", "VL_FRT", "VL_SEG", "VL_OUT_DA", "VL_BC_ICMS", "VL_ICMS",
    "VL_BC_ICMS_ST", "VL_ICMS_ST", "VL_IPI", "VL_PIS", "VL_COFINS", "VL_PIS_ST", "VL_COFINS_ST"]),
  ("C170", ["REG", "NUM_ITEM", "COD_ITEM", "DESCR_COMPL", "QTD", "UNID", "VL_ITEM", "VL_DESC",
    "IND_MOV", "CST_ICMS", "CFOP", "COD_NAT", "VL_BC_ICMS", "ALIQ_ICMS", "VL_ICMS",
    "VL_BC_ICMS_ST", "ALIQ_ST", "VL_ICMS_ST", "IND_APUR", "CST_IPI", "COD_ENQ",
    "VL_BC_IPI", "ALIQ_IPI", "VL_IPI", "CST_PIS", "VL_BC_PIS", "ALIQ_PIS", "QUANT_BC_PIS",
    "ALIQ_PIS_QUANT", "VL_PIS", "CST_COFINS", "VL_BC_COFINS", "ALIQ_COFINS", "QUANT_BC_COFINS",
    "ALIQ_COFINS_QUANT", "VL_COFINS", "COD_CTA"]),
  ("C190", ["REG", "CST_ICMS", "CFOP", "ALIQ_ICMS", "VL_OPR", "VL_BC_ICMS", "VL_ICMS",
    "VL_BC_ICMS_ST", "VL_ICMS_ST", "VL_RED_BC", "VL_IPI", "COD_OBS"]),
  ("C195", ["REG", "COD_OBS", "TXT_COMPL"]),
  ("C197", ["REG", "COD_AJ", "DESCR_COMPL_AJ", "COD_ITEM", "VL_BC_ICMS",
    "ALIQ_ICMS", "VL_ICMS", "VL_OUTROS"]),
  ("C500", ["REG", "COD_PART", "COD_MOD", "COD_SIT", "SER", "SUB", "NUM_DOC",
    "DT_DOC", "DT_ENT", "VL_DOC", "VL_ICMS", "COD_INF", "VL_PIS",
    "VL_COFINS", "CHV_DOCe"]),
  ("C501", ["REG", "CST_PIS", "VL_ITEM", "NAT_BC_CRED", "VL_BC_PIS",
    "ALIQ_PIS", "VL_PIS", "COD_CTA"]),
  ("C505", ["REG", "CST_COFINS", "VL_ITEM", "NAT_BC_CRED", "VL_BC_COFINS",
    "ALIQ_COFINS", "VL_COFINS", "COD_CTA"]),
  ("D010", ["REG", "CNPJ"]),
  ("D100", ["REG", "IND_OPER", "IND_EMIT", "COD_PART", "COD_MOD", "COD_SIT", "SER", "SUB", "NUM_DOC",
    "CHV_CTE", "DT_DOC", "DT_A_P", "TP_CT_E", "CHV_CTE_REF", "VL_DOC", "VL_DESC", "IND_FRT",
    "VL_SERV", "VL_BC_ICMS", "VL_ICMS", "VL_NT", "COD_INF", "COD_CTA", "COD_MUN_ORIG", "COD_MUN_DEST"]),
  ("D170", ["REG", "COD_ITEM", "DESCR_COMPL", "QTD", "UNID", "VL_ITEM", "VL_DESC", "IND_MOV",
    "CST_ICMS", "CFOP", "COD_NAT", "VL_BC_ICMS", "ALIQ_ICMS", "VL_ICMS", "VL_BC_ICMS_ST",
    "ALIQ_ST", "VL_ICMS_ST", "IND_APUR", "COD_CTA"]),
  ("D190", ["REG", "CST_ICMS", "CFOP", "ALIQ_ICMS", "VL_OPR", "VL_BC_ICMS",
    "VL_ICMS", "VL_RED_BC", "COD_OBS"]),
  ("D101", ["REG", "IND_NAT_FRT", "VL_ITEM", "CST_PIS", "NAT_BC_CRED",
    "VL_BC_PIS", "ALIQ_PIS", "VL_PIS", "COD_CTA"]),
  ("D105", ["REG", "IND_NAT_FRT", "VL_ITEM", "CST_COFINS", "NAT_BC_CRED",
    "VL_BC_COFINS", "ALIQ_COFINS", "VL_COFINS", "COD_CTA"]),
  ("D500", ["REG", "IND_OPER", "IND_EMIT", "COD_PART", "COD_MOD", "COD_SIT", "SER",
    "SUB", "NUM_DOC", "DT_DOC", "DT_A_P", "VL_DOC", "VL_DESC", "VL_SERV",
    "VL_SERV_NT", "VL_TERC", "VL_DA", "VL_BC_ICMS", "VL_ICMS", "COD_INF",
    "VL_PIS", "VL_COFINS", "CHV_DOCe"]),
  ("D501", ["REG", "CST_PIS", "VL_ITEM", "NAT_BC_CRED", "VL_BC_PIS",
    "ALIQ_PIS", "VL_PIS", "COD_CTA"]),
  ("D505", ["REG", "CST_COFINS", "VL_ITEM", "NAT_BC_CRED", "VL_BC_COFINS",
    "ALIQ_COFINS", "VL_COFINS", "COD_CTA"]),
  ("D700", ["REG", "IND_OPER", "IND_EMIT", "COD_PART", "COD_MOD", "COD_SIT", "SER",
    "NUM_DOC", "DT_DOC", "DT_E_S", "VL_DOC", "VL_DESC", "VL_SERV",
    "VL_SERV_NT", "VL_TERC", "VL_DA", "VL_BC_ICMS", "VL_ICMS", "COD_INF",
    "VL_PIS", "VL_COFINS", "CHV_DOCe", "FIN_DOCe", "TIP_FAT", "COD_MOD_DOC_REF",
    "CHV_DOCe_REF", "HASH_DOC_REF", "SER_DOC_REF", "NUM_DOC_REF",
    "MES_DOC_REF", "COD_MUN_DEST", "DED"]),
  ("A001", ["REG", "IND_MOV"]),
  ("A010", ["REG", "CNPJ"]),
  ("A100", ["REG", "IND_OPER", "IND_EMIT", "COD_PART", "COD_SIT", "SER", "SUB", "NUM_DOC",
    "CHV_NFSE", "DT_DOC", "DT_EXE_SERV", "VL_DOC", "IND_PGTO", "VL_DESC", "VL_BC_PIS",
    "VL_PIS", "VL_BC_COFINS", "VL_COFINS", "VL_PIS_RET", "VL_COFINS_RET", "VL_ISS"]),
  ("F001", ["REG", "IND_MOV"]),
  ("F010", ["REG", "CNPJ"]),
  ("F100", ["REG", "IND_OPER", "COD_PART", "COD_ITEM", "DT_OPER", "VL_OPER", "CST_PIS",
    "VL_BC_PIS", "ALIQ_PIS", "VL_PIS", "CST_COFINS", "VL_BC_COFINS", "ALIQ_COFINS",
    "VL_COFINS", "NAT_BC_CRED", "IND_ORIG_CRED", "COD_CTA", "COD_CCUS", "DESC_COMPL"]),
  ("F111", ["REG", "NUM_PROC", "IND_PROC"]),
  ("M001", ["REG", "IND_MOV"]),
  ("M100", ["REG", "COD_CRED", "IND_CRED_ORI", "VL_BC_PIS", "ALIQ_PIS", "QUANT_BC_PIS",
    "ALIQ_PIS_QUANT", "VL_CRED", "VL_AJUS_ACRES", "VL_AJUS_REDUC", "VL_CRED_DIF",
    "VL_CRED_DISP", "IND_DESC_CRED", "VL_CRED_DESC", "SLD_CRED"]),
  ("M105", ["REG", "NAT_BC_CRED", "CST_PIS", "VL_BC_PIS_TOT", "VL_BC_PIS_CUM", "VL_BC_PIS_NC",
    "VL_BC_PIS", "QUANT_BC_PIS_TOT", "QUANT_BC_PIS", "DESC_CRED"]),
  ("M110", ["REG", "IND_AJ", "VL_AJ", "COD_AJ", "NUM_DOC", "DESCR_AJ", "DT_REF"]),
  ("M115", ["REG", "DET_VALOR_AJ", "CST_PIS", "DET_BC_CRED", "DET_ALIQ",
    "DT_OPER_AJ", "DESC_AJ", "COD_CTA", "INFO_COMPL"]),
  ("E001", ["REG", "IND_DAD"]),
  ("E100", ["REG", "DT_INI", "DT_FIN"]),
  ("E110", ["REG", "VL_TOT_DEBITOS", "VL_AJ_DEBITOS", "VL_TOT_AJ_DEBITOS",
    "VL_ESTORNOS_CRED", "VL_TOT_CREDITOS", "VL_AJ_CREDITOS", "VL_TOT_AJ_CREDITOS",
    "VL_ESTORNOS_DEB", "VL_SLD_CREDOR_ANT", "VL_SLD_APURADO", "VL_TOT_DED",
    "VL_ICMS_RECOLHER", "VL_SLD_CREDOR_TRANSPORTAR", "DEB_ESP"]),
  ("E111", ["REG", "COD_AJ_APUR", "DESCR_COMPL_AJ", "VL_AJ_APUR"]),
  ("E112", ["REG", "NUM_DA", "NUM_PROC", "IND_PROC", "PROC", "COD_OBS"]),
  ("E113", ["REG", "COD_PART", "COD_MOD", "SER", "SUB", "NUM_DOC", "DT_DOC", "COD_ITEM", "VL_AJ_ITEM", "CHV_DOCe"]),
  ("E115", ["REG", "COD_INF_ADIC", "VL_INF_ADIC", "DESCR_COMPL_AJ"]),
  ("E116", ["REG", "COD_OR", "VL_OR", "DT_VCTO", "COD_REC", "NUM_PROC", "IND_PROC", "PROC", "TXT_COMPL", "MES_REF"])]

/-! ## Group registry (GROUPS) and the derived record actions -/

/-- One entry of the `GROUPS` dict: (parent, children, parent index column,
header index column, header code). -/
structure GroupInfo where
  parent : String
  children : List String
  parentIdxName : String
  headerIdxName : String
  header : String
deriving DecidableEq, Repr

/-- The `GROUPS` dict of src/sped_parser.py, values in insertion order. -/
def GROUPS_L : List GroupInfo := [
  ⟨"C100", ["C170", "C190", "C195", "C197"], "C100_INDEX", "C010_INDEX", "C010"⟩,
  ⟨"D100", ["D170", "D190", "D101", "D105"], "D100_INDEX", "D010_INDEX", "D010"⟩,
  ⟨"A100", [], "A100_INDEX", "A010_INDEX", "A010"⟩,
  ⟨"F100", ["F111"], "F100_INDEX", "F010_INDEX", "F010"⟩,
  ⟨"E110", ["E111", "E112", "E113", "E115", "E116"], "E110_INDEX", "E100_INDEX", "E100"⟩,
  ⟨"C500", ["C501", "C505"], "C500_INDEX", "C010_INDEX", "C010"⟩,
  ⟨"D500", ["D501", "D505"], "D500_INDEX", "D010_INDEX", "D010"⟩,
  ⟨"D700", [], "D700_INDEX", "D010_INDEX", "D010"⟩]

/-- The `type` field of an index action dict: `'increment'` or `'read'`. -/
inductive ActionType
  | increment
  | read
deriving DecidableEq, Repr

/-- One action dict `{type, key, col}` of `self.record_actions`. -/
structure IndexAction where
  type : ActionType
  key : String
  col : String
deriving DecidableEq, Repr

/-- `self.record_actions`: record code ↦ list of index actions,
as an insertion-ordered association list (a Python dict). -/
abbrev RA := List (String × List IndexAction)

/-- Action list of a code; `[]` when the code has no entry (the source guards
every use with `if registro in self.record_actions`). -/
def getActs (ra : RA) (code : String) : List IndexAction :=
  (ra.lookup code).getD []

/-- Python `any(a.type == t and a.key == k for a in acts)`. -/
def hasTypeKey (acts : List IndexAction) (t : ActionType) (k : String) : Bool :=
  acts.any (fun a => decide (a.type = t ∧ a.key = k))

/-- `if code not in record_actions: record_actions[code] = []` (dict insertion
appends the new key at the end). -/
def raEnsure (ra : RA) (code : String) : RA :=
  if (ra.lookup code).isSome then ra else ra ++ [(code, [])]

/-- `record_actions[code].append(a)`. -/
def raAppend (ra : RA) (code : String) (a : IndexAction) : RA :=
  ra.map (fun p => if p.1 = code then (p.1, p.2 ++ [a]) else p)

/-- The ensure-entry / check-duplicate / append step the constructor performs
for every action it derives from a group. -/
def addUnique (ra : RA) (code : String) (t : ActionType) (k col : String) : RA :=
  let ra := raEnsure ra code
  if hasTypeKey (getActs ra code) t k then ra
  else raAppend ra code ⟨t, k, col⟩

/-- Python `str.lower()` as the source applies it to record codes (ASCII). -/
def pyLower (s : String) : String :=
  String.mk (s.data.map Char.toLower)

/-- The body of the `for group_info in self.groups.values()` loop of
`SpedParser.__init__`: parent increment, parent header-read, header increment,
children parent-reads, each added only if not already present. -/
def addGroupActions (ra : RA) (g : GroupInfo) : RA :=
  let parentKey := (pyLower g.parent)
  let ra := addUnique ra g.parent .increment parentKey g.parentIdxName
  let ra :=
    if g.header ≠ "" ∧ g.header ≠ g.parent then
      addUnique ra g.parent .read (pyLower g.header) g.headerIdxName
    else ra
  let ra :=
    if g.header ≠ "" then
      addUnique ra g.header .increment (pyLower g.header) g.headerIdxName
    else ra
  g.children.foldl (fun ra child => addUnique ra child .read parentKey g.parentIdxName) ra

/-- The whole construction-time derivation of `self.record_actions` from the
group registry. -/
def deriveRecordActions (groups : List GroupInfo) : RA :=
  groups.foldl addGroupActions []

/-- The configuration a `SpedParser` instance carries: its layouts and the
derived record actions (constructor defaults: `LAYOUTS` and the actions
derived from `GROUPS`). -/
structure SpedConfig where
  layouts : List (String × List String)
  recordActions : RA

/-- A parser constructed with the bundled default registries. -/
def defaultCfg : SpedConfig :=
  { layouts := LAYOUTS_L, recordActions := deriveRecordActions GROUPS_L }

/-! ## Row accumulation (the parsing pass) -/

/-- One accumulated row: base field values plus appended index values,
all strings (the source appends `str(index)`). -/
abbrev Row := List String

/-- `SpedParser._pad_line`: tokenize, pad with empty strings up to the
layout's field count, truncate extras. -/
def pad_line (layouts : List (String × List String)) (registro : String) (raw_line : String) :
    List String :=
  let parts := parse_sped_line raw_line
  match layouts.lookup registro with
  | none => parts
  | some campos =>
    let expected := campos.length
    let parts :=
      if parts.length < expected then parts ++ List.replicate (expected - parts.length) ""
      else parts
    parts.take expected

/-- The `for action in self.record_actions[registro]` loop of
`_process_generic`: thread the counters through the actions, collecting the
emitted string values in order. `increment` bumps the counter and emits the
new value; `read` emits the current value (`self.indices.get(key, -1)`). -/
def applyActions (acts : List IndexAction) (ind : String → Int) :
    (String → Int) × List String :=
  match acts with
  | [] => (ind, [])
  | a :: rest =>
    match a.type with
    | .increment =>
      let v := ind a.key + 1
      let r := applyActions rest (Function.update ind a.key v)
      (r.1, toString v :: r.2)
    | .read =>
      let r := applyActions rest ind
      (r.1, toString (ind a.key) :: r.2)

/-- The mutable state a pass threads through `_process_generic`:
`self.indices` (every key seeded at −1) and `self.rows`. -/
structure CoreState where
  indices : String → Int
  rows : String → List Row

/-- The metrics-and-core state of one parsing pass (`self.metrics` counters
relevant to the claims, plus the core). -/
structure ParserState where
  core : CoreState
  totalLines : Nat
  processedLines : Nat
  errorLines : Nat
  skippedLines : Nat
  registrosPorTipo : String → Nat
  errosPorTipo : String → Nat

/-- State at the start of a pass over a file with `n` lines (the source sets
`metrics.total_lines` by counting lines before the loop). -/
def initState (n : Nat) : ParserState :=
  { core := { indices := fun _ => -1, rows := fun _ => [] },
    totalLines := n, processedLines := 0, errorLines := 0, skippedLines := 0,
    registrosPorTipo := fun _ => 0, errosPorTipo := fun _ => 0 }

/-- `SpedParser._process_generic` acting on the core state. -/
def coreStep (cfg : SpedConfig) (registro raw_line : String) (c : CoreState) : CoreState :=
  let parts := pad_line cfg.layouts registro raw_line
  let r := applyActions (getActs cfg.recordActions registro) c.indices
  { indices := r.1,
    rows := Function.update c.rows registro (c.rows registro ++ [parts ++ r.2]) }

/-- `SpedParser._process_generic`. -/
def process_generic (cfg : SpedConfig) (registro raw_line : String) (s : ParserState) :
    ParserState :=
  { s with core := coreStep cfg registro raw_line s.core }

/-- `raw_line[1:5]`, the 4-character record code (the caller guarantees
`len(raw_line) ≥ 5`). -/
def lineCode (raw_line : String) : String :=
  String.mk ((raw_line.data.drop 1).take 4)

/-- The `SpedParseError` of src/exceptions.py (fields kept on the object). -/
structure SpedParseError where
  message : String
  lineNumber : Option Nat
  lineContent : Option String
deriving DecidableEq, Repr

/-- The 100-character content preview `SpedParseError.__init__` builds. -/
def pyPreview (content : String) : String :=
  if content.length > 100 then String.mk (content.data.take 100) ++ "..." else content

/-- `SpedParseError.__init__`: decorate the message with the line number
(when truthy, i.e. not `None` and nonzero) and the content preview (when the
content is truthy, i.e. not `None` and nonempty). -/
def mkParseError (message : String) (lineNumber : Option Nat) (lineContent : Option String) :
    SpedParseError :=
  let message :=
    match lineNumber with
    | some n => if n ≠ 0 then "Linha " ++ toString n ++ ": " ++ message else message
    | none => message
  let message :=
    match lineContent with
    | some c => if c ≠ "" then message ++ "\nConteúdo: " ++ pyPreview c else message
    | none => message
  ⟨message, lineNumber, lineContent⟩

/-- `ProcessingMetrics.increment_registro`: bump the per-record-code counter
and the processed-lines counter. -/
def increment_registro (s : ParserState) (tipo_registro : String) : ParserState :=
  { s with
    processedLines := s.processedLines + 1,
    registrosPorTipo :=
      Function.update s.registrosPorTipo tipo_registro
        (s.registrosPorTipo tipo_registro + 1) }

/-- `ProcessingMetrics.increment_erro`: bump the per-category error counter
and the error-lines counter. -/
def increment_erro (s : ParserState) (tipo_erro : String) : ParserState :=
  { s with
    errorLines := s.errorLines + 1,
    errosPorTipo :=
      Function.update s.errosPorTipo tipo_erro (s.errosPorTipo tipo_erro + 1) }

/-- `SpedParser._process_line`: reject lines shorter than 5 characters with a
`SpedParseError`, count the record code in the metrics, then process the line
generically when the code is in the layouts (unknown codes are dropped but
already counted). -/
def process_line (cfg : SpedConfig) (raw_line : String) (line_number : Nat)
    (s : ParserState) : Except SpedParseError ParserState :=
  if raw_line.length < 5 then
    .error (mkParseError "Linha muito curta para conter registro válido"
      (some line_number) (some raw_line))
  else
    let registro := lineCode raw_line
    let s := increment_registro s registro
    if (cfg.layouts.lookup registro).isSome then
      .ok (process_generic cfg registro raw_line s)
    else
      .ok s

/-- The whitespace set Python's `str.strip()` removes, for the text the
format can contain. -/
def pyIsSpace (c : Char) : Bool :=
  c == ' ' || c == '\t' || c == '\n' || c == '\r' || c == '\x0b' || c == '\x0c'

/-- `not raw_line.strip()`: the line is empty or all whitespace. -/
def isBlank (s : String) : Bool :=
  s.data.all pyIsSpace

/-- Python `raw_line.startswith('|')`: the first character is the pipe. -/
def startsWithPipe (s : String) : Bool :=
  match s.data with
  | [] => false
  | c :: _ => c == '|'

/-- The skip condition of the parse loop:
`if not raw_line.strip() or not raw_line.startswith('|')`. -/
def isSkippedLine (raw_line : String) : Bool :=
  isBlank raw_line || !(startsWithPipe raw_line)

/-- The `for line_number, raw_line in enumerate(file, 1)` loop of
`SpedParser.parse`: skip blank or non-pipe lines, process the rest; a
`SpedParseError` is counted in the metrics and, in strict mode, aborts the
pass, otherwise the pass continues with the next line. -/
def parseLoop (cfg : SpedConfig) (strict : Bool) :
    List String → Nat → ParserState → Except SpedParseError ParserState
  | [], _, s => .ok s
  | raw :: rest, n, s =>
    if isSkippedLine raw then
      parseLoop cfg strict rest (n + 1) { s with skippedLines := s.skippedLines + 1 }
    else
      match process_line cfg raw n s with
      | .ok s' => parseLoop cfg strict rest (n + 1) s'
      | .error e =>
        if strict then .error e
        else parseLoop cfg strict rest (n + 1) (increment_erro s "Parse Error")

/-- `SpedParser.parse` over the file's lines, with the strict-mode flag
(`validation.strict_mode`, default false): set `total_lines`, then run the
per-line loop from line number 1. -/
def parse (cfg : SpedConfig) (strict : Bool) (lines : List String) :
    Except SpedParseError ParserState :=
  parseLoop cfg strict lines 1 (initState lines.length)

/-- The total function the lenient (default) mode computes: same recursion as
`parseLoop` with the abort branch unreachable. -/
def lenientRun (cfg : SpedConfig) :
    List String → Nat → ParserState → ParserState
  | [], _, s => s
  | raw :: rest, n, s =>
    if isSkippedLine raw then
      lenientRun cfg rest (n + 1) { s with skippedLines := s.skippedLines + 1 }
    else
      match process_line cfg raw n s with
      | .ok s' => lenientRun cfg rest (n + 1) s'
      | .error _ => lenientRun cfg rest (n + 1) (increment_erro s "Parse Error")

/-! ## Numeric/locale converter (convert_numeric_columns) -/

/-- `.str.replace('.', '', regex=False)`: remove every grouping dot. -/
def stripDots (s : String) : String :=
  String.mk (s.data.filter (fun c => !(c == '.')))

/-- `.str.replace(',', '.', regex=False)`: decimal comma to dot. -/
def commaToDot (s : String) : String :=
  String.mk (s.data.map (fun c => if c = ',' then '.' else c))

/-- Python `str.strip()` over the whitespace the data can contain. -/
def pyStrip (s : String) : String :=
  String.mk ((((s.data.dropWhile pyIsSpace).reverse).dropWhile pyIsSpace).reverse)

/-- Value of a digit list read in base 10. -/
def digitsNat (cs : List Char) : Nat :=
  cs.foldl (fun acc c => acc * 10 + (c.toNat - '0'.toNat)) 0

/-- The same value as a rational. -/
def digitsVal (cs : List Char) : ℚ :=
  (digitsNat cs : ℚ)

/-- Parse of an unsigned decimal literal `digits[.digits]` with at least one
digit; anything else is `none`. Models the number recognition of
`pd.to_numeric` on the plain decimal strings this pipeline produces, with
machine floats abstracted to `ℚ`. -/
def parseUnsignedDecimal (cs : List Char) : Option ℚ :=
  let intPart := cs.takeWhile Char.isDigit
  let rest := cs.dropWhile Char.isDigit
  match rest with
  | [] => if intPart.isEmpty then none else some (digitsVal intPart)
  | c :: frac =>
    if c = '.' then
      if frac.all Char.isDigit && !(intPart.isEmpty && frac.isEmpty) then
        some (digitsVal intPart + digitsVal frac / (10 : ℚ) ^ frac.length)
      else none
    else none

/-- Optional sign in front of an unsigned decimal. -/
def parseDecimal (s : String) : Option ℚ :=
  match s.data with
  | [] => parseUnsignedDecimal []
  | c :: rest =>
    if c = '+' then parseUnsignedDecimal rest
    else if c = '-' then (parseUnsignedDecimal rest).map (fun q => -q)
    else parseUnsignedDecimal (c :: rest)

/-- The per-value pipeline of `convert_numeric_columns`: drop grouping dots,
turn the decimal comma into a dot, strip whitespace, then coerce to a number
with unparseable content becoming null (`errors='coerce'` → `NaN` = `none`). -/
def convertNumericValue (s : String) : Option ℚ :=
  parseDecimal (pyStrip (commaToDot (stripDots s)))

/-- A whole column after conversion. -/
def convertedColumn (vals : List String) : List (Option ℚ) :=
  vals.map convertNumericValue

/-- `null_count = df[col].isna().sum()`: the conversion-failure/null count the
source computes and logs for a converted column. -/
def nullCount (vals : List String) : Nat :=
  (convertedColumn vals).countP (fun v => v.isNone)

/-- A cell of a DataFrame after numeric conversion: still text, or a numeric
value where `none` is `NaN`. -/
inductive Cell
  | str (s : String)
  | num (v : Option ℚ)
deriving DecidableEq, Repr

/-- `convert_numeric_columns(df, columns)` on a table given as its column
names and string rows: every listed column that exists is rewritten through
the numeric pipeline, every other column is untouched; no input can make it
fail, and no rows are added or dropped. -/
def convert_numeric_columns (cols : List String) (columns : List String)
    (rows : List (List String)) : List (List Cell) :=
  rows.map (fun r =>
    (cols.zip r).map (fun p =>
      if columns.contains p.1 then Cell.num (convertNumericValue p.2) else Cell.str p.2))

/-! ## Metrics (src/metrics.py) -/

/-- The fields of `ProcessingMetrics` the derived-rate accessors read;
timestamps abstracted to `ℚ`. -/
structure MetricsState where
  total_lines : Nat
  processed_lines : Nat
  error_lines : Nat
  skipped_lines : Nat
  tempo_inicio : ℚ
  tempo_fim : ℚ

/-- `ProcessingMetrics.tempo_processamento`, with `now` the value a
`time.time()` call would return. -/
def tempo_processamento (m : MetricsState) (now : ℚ) : ℚ :=
  (if m.tempo_fim > 0 then m.tempo_fim else now) - m.tempo_inicio

/-- `ProcessingMetrics.taxa_sucesso`. -/
def taxa_sucesso (m : MetricsState) : ℚ :=
  if m.total_lines = 0 then 0
  else ((m.processed_lines : ℚ) / (m.total_lines : ℚ)) * 100

/-- `ProcessingMetrics.linhas_por_segundo`. -/
def linhas_por_segundo (m : MetricsState) (now : ℚ) : ℚ :=
  let tempo := tempo_processamento m now
  if tempo = 0 then 0
  else (m.processed_lines : ℚ) / tempo

/-! ## DataFrames and the consolidation (join) engine -/

/-- A pandas DataFrame as used by the consolidation engine: named columns and
rectangular rows of cells, `none` being a missing value (`NaN`). -/
structure DataFrame where
  cols : List String
  rows : List (List (Option String))
deriving DecidableEq, Repr

/-- `pd.DataFrame()`. -/
def emptyDF : DataFrame := ⟨[], []⟩

/-- The cell of a row under a column name (the first column of that name). -/
def getCell (cols : List String) (row : List (Option String)) (c : String) :
    Option String :=
  match cols.findIdx? (fun x => decide (x = c)) with
  | some i => (row[i]?).getD none
  | none => none

/-- `df.empty`. -/
def DataFrame.isEmptyDF (df : DataFrame) : Bool :=
  df.rows.isEmpty

/-- Rectangularity: every row has exactly one cell per column. pandas
guarantees this shape; the embedding carries it as a predicate. -/
def DataFrame.Rect (df : DataFrame) : Prop :=
  ∀ r ∈ df.rows, r.length = df.cols.length

/-- Python `str(value)` on a cell, where a missing value prints as `"nan"`. -/
def astypeStr (v : Option String) : Option String :=
  some (v.getD "nan")

/-- Rewrite the cell of one named column in a row. -/
def mapAtCol (cols : List String) (c : String) (f : Option String → Option String)
    (row : List (Option String)) : List (Option String) :=
  match cols.findIdx? (fun x => decide (x = c)) with
  | some i => row.set i (f ((row[i]?).getD none))
  | none => row

/-- `if col in df.columns: df[col] = df[col].astype(str)`. -/
def castColStr (df : DataFrame) (c : String) : DataFrame :=
  if df.cols.contains c then
    { df with rows := df.rows.map (mapAtCol df.cols c astypeStr) }
  else df

/-- Join-key comparison: pandas merge matches two key cells when both are
present and equal; a missing key never matches anything. -/
def cellKeyEq (a b : Option String) : Bool :=
  match a, b with
  | some x, some y => x == y
  | _, _ => false

/-- `left.merge(right, how='left', on=key)` for the single-key,
otherwise-disjoint-columns form the engine uses: left rows in order, one
output row per match, an all-null widening for a left row with no match. -/
def leftMerge (left right : DataFrame) (key : String) : DataFrame :=
  let rightRest := right.cols.filter (fun c => decide (c ≠ key))
  { cols := left.cols ++ rightRest,
    rows := left.rows.flatMap (fun r =>
      let k := getCell left.cols r key
      let ms := right.rows.filter (fun rr => cellKeyEq k (getCell right.cols rr key))
      match ms with
      | [] => [r ++ rightRest.map (fun _ => none)]
      | _ => ms.map (fun rr => r ++ rightRest.map (fun c => getCell right.cols rr c))) }

/-- The columns a child contributes: everything except `REG` and the join
key. -/
def keepColsOf (child : DataFrame) (key : String) : List String :=
  child.cols.filter (fun c => decide (c ≠ "REG" ∧ c ≠ key))

/-- The renamed child table `child_to_merge`: the join key plus the kept
columns under their `<code>_` prefixed names. -/
def childToMerge (code : String) (child : DataFrame) (key : String) : DataFrame :=
  let keep := keepColsOf child key
  { cols := key :: keep.map (fun c => code ++ "_" ++ c),
    rows := child.rows.map (fun r =>
      getCell child.cols r key :: keep.map (fun c => getCell child.cols r c)) }

/-- The per-child step of `consolidate_group_new`: skip an absent, empty,
keyless or columnless child, otherwise cast its key to text and left-join its
renamed columns onto the running result. -/
def consolidateChildStep (dfs : List (String × DataFrame)) (key : String)
    (result : DataFrame) (code : String) : DataFrame :=
  match dfs.lookup code with
  | none => result
  | some child =>
    if child.isEmptyDF then result
    else if child.cols.contains key then
      let child := castColStr child key
      if (keepColsOf child key).isEmpty then result
      else leftMerge result (childToMerge code child key) key
    else result

/-- `SpedDataProcessor.consolidate_group_new`: empty output for an absent or
empty parent, otherwise fold the child joins over the parent table (with the
parent's key cast to text). -/
def consolidate_group_new (dfs : List (String × DataFrame)) (parent_code : String)
    (child_codes : List String) (parent_index_col : String) : DataFrame :=
  match dfs.lookup parent_code with
  | none => emptyDF
  | some pdf =>
    if pdf.isEmptyDF then emptyDF
    else
      let result := castColStr pdf parent_index_col
      child_codes.foldl (consolidateChildStep dfs parent_index_col) result

/-! ## Specification-side views of a pass

These definitions are the yardsticks the theorems compare the parser against;
`specAttributedIndices` is modelled from the spec's words (the parent
counter, seeded at −1, read by each child row at the moment it is processed),
the rest are plain bookkeeping over the recognized lines. -/

/-- A line the accumulator acts on: not skipped, long enough to carry a code,
and its code is in the layout registry. -/
def isRecognized (cfg : SpedConfig) (raw : String) : Bool :=
  !(isSkippedLine raw) && decide (5 ≤ raw.length)
    && (cfg.layouts.lookup (lineCode raw)).isSome

/-- The subsequence of a file's lines the accumulator acts on, in order. -/
def recLines (cfg : SpedConfig) (lines : List String) : List String :=
  lines.filter (isRecognized cfg)

/-- Folding `_process_generic` over a list of recognized lines. -/
def coreRun (cfg : SpedConfig) (c : CoreState) (ls : List String) : CoreState :=
  ls.foldl (fun c raw => coreStep cfg (lineCode raw) raw c) c

/-- Number of increment actions with a given key in an action list. -/
def incCount (acts : List IndexAction) (k : String) : Nat :=
  acts.countP (fun a => decide (a.type = .increment ∧ a.key = k))

/-- Total number of increments of key `k` a list of recognized lines
performs. -/
def countIncs (cfg : SpedConfig) (k : String) (ls : List String) : Nat :=
  (ls.map (fun raw => incCount (getActs cfg.recordActions (lineCode raw)) k)).sum

/-- Number of lines of one record code in a list of recognized lines. -/
def countCode (c : String) (ls : List String) : Nat :=
  ls.countP (fun raw => decide (lineCode raw = c))

/-- The rows a run over recognized lines appends for one record code, with
the counter state threaded exactly as `_process_generic` threads it. -/
def specRows (cfg : SpedConfig) : (String → Int) → List String → String → List Row
  | _, [], _ => []
  | ind, raw :: rest, code =>
    let reg := lineCode raw
    let acts := getActs cfg.recordActions reg
    (if reg = code then [pad_line cfg.layouts reg raw ++ (applyActions acts ind).2] else [])
      ++ specRows cfg (applyActions acts ind).1 rest code

/-- Modelled from the spec: the index values the rows of record code `c`
should carry for a counter owned by record code `p`, current value `v`.
A `c` line emits the counter (after bumping it first when `isInc`, i.e. when
`c` owns the counter); a `p` line bumps the counter by one. -/
def specAttributedIndices (isInc : Bool) (p c : String) : Int → List String → List Int
  | _, [] => []
  | v, raw :: rest =>
    let reg := lineCode raw
    (if reg = c then [if isInc then v + 1 else v] else [])
      ++ specAttributedIndices isInc p c (v + (if reg = p then 1 else 0)) rest

/-- Number of base (layout) columns of a record code. -/
def baseLen (cfg : SpedConfig) (c : String) : Nat :=
  ((cfg.layouts.lookup c).getD []).length

/-- No two actions of a list share their (type, key) pair — what the
constructor's duplicate checks enforce. -/
def NoDupTK (acts : List IndexAction) : Prop :=
  acts.Pairwise (fun x y => ¬(x.type = y.type ∧ x.key = y.key))

/-- The ways one group of the registry donates an action (type, key) to a
record code, read off the four insertion sites of the constructor loop. -/
def groupRole (g : GroupInfo) (code : String) (t : ActionType) (k : String) : Prop :=
  (t = .increment ∧ code = g.parent ∧ k = (pyLower g.parent))
  ∨ (g.header ≠ "" ∧ g.header ≠ g.parent ∧ t = .read ∧ code = g.parent ∧ k = (pyLower g.header))
  ∨ (g.header ≠ "" ∧ t = .increment ∧ code = g.header ∧ k = (pyLower g.header))
  ∨ (t = .read ∧ code ∈ g.children ∧ k = (pyLower g.parent))

/-- A group all of whose derived actions are already present in a map. -/
def Satisfied (g : GroupInfo) (ra : RA) : Prop :=
  hasTypeKey (getActs ra g.parent) .increment (pyLower g.parent) = true
  ∧ (g.header ≠ "" ∧ g.header ≠ g.parent →
      hasTypeKey (getActs ra g.parent) .read (pyLower g.header) = true)
  ∧ (g.header ≠ "" →
      hasTypeKey (getActs ra g.header) .increment (pyLower g.header) = true)
  ∧ ∀ c ∈ g.children, hasTypeKey (getActs ra c) .read (pyLower g.parent) = true

/-! ## Spec-side views of the join engine -/

/-- The join-key cell of every row of a table, in row order. -/
def keyVals (df : DataFrame) (key : String) : List (Option String) :=
  df.rows.map (fun r => getCell df.cols r key)

/-- Number of rows of a child table whose join-key cell matches a given key
value. -/
def matchCount (child : DataFrame) (key : String) (k : Option String) : Nat :=
  (child.rows.filter (fun rr => cellKeyEq k (getCell child.cols rr key))).length

/-- Every join-key cell of the table is present (not `NaN`) — true of every
table the parser itself builds. -/
def KeyClean (df : DataFrame) (key : String) : Prop :=
  ∀ r ∈ df.rows, (getCell df.cols r key).isSome

/-! ## Concrete data used by the witnesses and counterexamples -/

/-- A small input file: a C170 child before any C100 parent, a blank line, a
malformed short line, an unknown record code, then parents and children
interleaved. -/
def testLines : List String :=
  ["|C170|early|", "", "|x", "|ZZZZ|q|", "|C100|a|", "|C170|x|", "|C170|y|",
    "|C100|b|", "|C170|z|"]

/-- The state the default parser reaches on `testLines` in lenient mode. -/
def testState : ParserState :=
  lenientRun defaultCfg testLines 1 (initState testLines.length)

/-- A one-line file whose record code is unknown to the layout registry. -/
def unknownCodeLines : List String := ["|ZZZZ|1|"]

/-- The state the default parser reaches on `unknownCodeLines`. -/
def unknownCodeState : ParserState :=
  lenientRun defaultCfg unknownCodeLines 1 (initState unknownCodeLines.length)

/-- Parent table for the join witnesses: one row with key value "0". -/
def wParent : DataFrame :=
  ⟨["REG", "K", "PV"], [[some "P100", some "0", some "pv"]]⟩

/-- Child table A: two rows matching key "0". -/
def wChildA : DataFrame :=
  ⟨["REG", "K", "AV"],
    [[some "A200", some "0", some "a1"], [some "A200", some "0", some "a2"]]⟩

/-- Child table B: three rows matching key "0". -/
def wChildB : DataFrame :=
  ⟨["REG", "K", "BV"],
    [[some "B300", some "0", some "b1"], [some "B300", some "0", some "b2"],
      [some "B300", some "0", some "b3"]]⟩

/-- The table mapping for the join witnesses. -/
def wDfs : List (String × DataFrame) :=
  [("P100", wParent), ("A200", wChildA), ("B300", wChildB)]

/-- First group of the order-dependence counterexample: parent X100 with
parent-index column IDX_A. -/
def g8a : GroupInfo := ⟨"X100", [], "IDX_A", "HDX_INDEX", "H100"⟩

/-- Second group: the same parent X100 but parent-index column IDX_B. -/
def g8b : GroupInfo := ⟨"X100", [], "IDX_B", "HDX_INDEX", "H100"⟩

/-! ## Basic lemmas about the per-line machinery -/

theorem process_line_short (cfg : SpedConfig) (raw : String) (n : Nat) (s : ParserState)
    (h : raw.length < 5) :
    process_line cfg raw n s
      = .error (mkParseError "Linha muito curta para conter registro válido"
          (some n) (some raw)) := by
  simp [process_line, h]

theorem process_line_known (cfg : SpedConfig) (raw : String) (n : Nat) (s : ParserState)
    (h : ¬ raw.length < 5) (hk : (cfg.layouts.lookup (lineCode raw)).isSome = true) :
    process_line cfg raw n s
      = .ok (process_generic cfg (lineCode raw) raw (increment_registro s (lineCode raw))) := by
  simp [process_line, h, hk]

theorem process_line_unknown (cfg : SpedConfig) (raw : String) (n : Nat) (s : ParserState)
    (h : ¬ raw.length < 5) (hk : (cfg.layouts.lookup (lineCode raw)).isSome = false) :
    process_line cfg raw n s = .ok (increment_registro s (lineCode raw)) := by
  simp [process_line, h, hk]

theorem parseLoop_false_eq (cfg : SpedConfig) (lines : List String) :
    ∀ (n : Nat) (s : ParserState),
      parseLoop cfg false lines n s = .ok (lenientRun cfg lines n s) := by
  induction lines with
  | nil => intro n s; rfl
  | cons raw rest ih =>
    intro n s
    simp only [parseLoop, lenientRun]
    split
    · exact ih _ _
    · cases hpl : process_line cfg raw n s with
      | ok s' => exact ih _ _
      | error e => simpa using ih _ _

theorem parse_false_eq (cfg : SpedConfig) (lines : List String) :
    parse cfg false lines = .ok (lenientRun cfg lines 1 (initState lines.length)) :=
  parseLoop_false_eq cfg lines 1 _

/-! ## The core of a lenient pass is the fold over its recognized lines -/

theorem increment_registro_core (s : ParserState) (reg : String) :
    (increment_registro s reg).core = s.core := rfl

theorem increment_erro_core (s : ParserState) (t : String) :
    (increment_erro s t).core = s.core := rfl

theorem isRecognized_of_skipped (cfg : SpedConfig) (raw : String)
    (h : isSkippedLine raw = true) : isRecognized cfg raw = false := by
  simp [isRecognized, h]

theorem isRecognized_of_short (cfg : SpedConfig) (raw : String)
    (h : raw.length < 5) : isRecognized cfg raw = false := by
  simp [isRecognized]
  intro _ h5
  omega

theorem isRecognized_true_iff (cfg : SpedConfig) (raw : String) :
    isRecognized cfg raw = true
      ↔ isSkippedLine raw = false ∧ 5 ≤ raw.length
        ∧ (cfg.layouts.lookup (lineCode raw)).isSome = true := by
  simp [isRecognized, and_assoc]

theorem coreRun_nil (cfg : SpedConfig) (c : CoreState) : coreRun cfg c [] = c := rfl

theorem coreRun_cons (cfg : SpedConfig) (c : CoreState) (raw : String) (ls : List String) :
    coreRun cfg c (raw :: ls) = coreRun cfg (coreStep cfg (lineCode raw) raw c) ls := rfl

theorem lenientRun_core (cfg : SpedConfig) (lines : List String) :
    ∀ (n : Nat) (s : ParserState),
      (lenientRun cfg lines n s).core = coreRun cfg s.core (recLines cfg lines) := by
  induction lines with
  | nil => intro n s; rfl
  | cons raw rest ih =>
    intro n s
    by_cases hskip : isSkippedLine raw = true
    · rw [lenientRun, if_pos hskip]
      rw [show recLines cfg (raw :: rest) = recLines cfg rest by
        simp [recLines, List.filter_cons, isRecognized_of_skipped cfg raw hskip]]
      exact ih _ _
    · rw [lenientRun, if_neg hskip]
      by_cases hshort : raw.length < 5
      · rw [process_line_short cfg raw n s hshort]
        rw [show recLines cfg (raw :: rest) = recLines cfg rest by
          simp [recLines, List.filter_cons, isRecognized_of_short cfg raw hshort]]
        exact ih _ _
      · cases hk : (cfg.layouts.lookup (lineCode raw)).isSome with
        | true =>
          rw [process_line_known cfg raw n s hshort hk]
          have hrec : isRecognized cfg raw = true := by
            rw [isRecognized_true_iff]
            exact ⟨by simpa using hskip, by omega, hk⟩
          rw [show recLines cfg (raw :: rest) = raw :: recLines cfg rest by
            simp [recLines, List.filter_cons, hrec]]
          rw [ih _ _, coreRun_cons]
          rfl
        | false =>
          rw [process_line_unknown cfg raw n s hshort hk]
          rw [show recLines cfg (raw :: rest) = recLines cfg rest by
            simp [recLines, List.filter_cons, isRecognized, hk]]
          rw [ih _ _]
          rfl

/-! ## What the actions do to the counters and the emitted values -/

theorem applyActions_fst (acts : List IndexAction) :
    ∀ (ind : String → Int) (k : String),
      (applyActions acts ind).1 k = ind k + incCount acts k := by
  induction acts with
  | nil => intro ind k; simp [applyActions, incCount]
  | cons a rest ih =>
    intro ind k
    obtain ⟨t, key, col⟩ := a
    cases t with
    | increment =>
      rw [incCount, List.countP_cons]
      by_cases hkey : key = k
      · subst hkey
        simp only [applyActions]
        rw [ih]
        simp [incCount]
        omega
      · simp only [applyActions]
        rw [ih]
        rw [Function.update_noteq (Ne.symm hkey)]
        simp [incCount, hkey]
    | read =>
      rw [incCount, List.countP_cons]
      simp only [applyActions]
      rw [ih]
      simp [incCount]

theorem applyActions_snd_length (acts : List IndexAction) (ind : String → Int) :
    (applyActions acts ind).2.length = acts.length := by
  induction acts generalizing ind with
  | nil => rfl
  | cons a rest ih =>
    obtain ⟨t, key, col⟩ := a
    cases t <;> simp [applyActions, ih]

theorem applyActions_snd_get (acts : List IndexAction) :
    ∀ (ind : String → Int) (j : Nat) (a : IndexAction),
      acts[j]? = some a →
      (∀ i b, i < j → acts[i]? = some b → ¬(b.type = .increment ∧ b.key = a.key)) →
      (applyActions acts ind).2[j]?
        = some (match a.type with
            | .increment => toString (ind a.key + 1)
            | .read => toString (ind a.key)) := by
  induction acts with
  | nil => intro ind j a hj; simp at hj
  | cons b rest ih =>
    intro ind j a hj hpre
    obtain ⟨t, key, col⟩ := b
    cases j with
    | zero =>
      simp only [List.getElem?_cons_zero, Option.some.injEq] at hj
      subst hj
      cases t <;> simp [applyActions]
    | succ j' =>
      simp only [List.getElem?_cons_succ] at hj
      have hpre' : ∀ i b, i < j' → rest[i]? = some b →
          ¬(b.type = .increment ∧ b.key = a.key) := by
        intro i bb hi hib
        exact hpre (i + 1) bb (by omega) (by simpa using hib)
      cases t with
      | increment =>
        have hne : key ≠ a.key := by
          have := hpre 0 ⟨.increment, key, col⟩ (by omega) (by simp)
          simpa using this
        have := ih (Function.update ind key (ind key + 1)) j' a hj hpre'
        simp only [applyActions, List.getElem?_cons_succ]
        rw [this, Function.update_noteq (Ne.symm hne)]
      | read =>
        have := ih ind j' a hj hpre'
        simp only [applyActions, List.getElem?_cons_succ]
        rw [this]

/-! ## Counter and row invariants of a run over recognized lines -/

theorem coreRun_indices (cfg : SpedConfig) (ls : List String) :
    ∀ (c : CoreState) (k : String),
      (coreRun cfg c ls).indices k = c.indices k + countIncs cfg k ls := by
  induction ls with
  | nil => intro c k; simp [coreRun_nil, countIncs]
  | cons raw rest ih =>
    intro c k
    rw [coreRun_cons, ih]
    show (coreStep cfg (lineCode raw) raw c).indices k + _ = _
    rw [show (coreStep cfg (lineCode raw) raw c).indices
        = (applyActions (getActs cfg.recordActions (lineCode raw)) c.indices).1 from rfl]
    rw [applyActions_fst]
    simp [countIncs]
    omega

theorem coreRun_rows (cfg : SpedConfig) (ls : List String) :
    ∀ (c : CoreState) (code : String),
      (coreRun cfg c ls).rows code = c.rows code ++ specRows cfg c.indices ls code := by
  induction ls with
  | nil => intro c code; simp [coreRun_nil, specRows]
  | cons raw rest ih =>
    intro c code
    rw [coreRun_cons, ih]
    show (coreStep cfg (lineCode raw) raw c).rows code ++ _ = _
    simp only [specRows, coreStep]
    by_cases hreg : lineCode raw = code
    · subst hreg
      rw [Function.update_same]
      simp [List.append_assoc]
    · rw [Function.update_noteq (Ne.symm hreg)]
      simp [hreg]

theorem specRows_length (cfg : SpedConfig) (ls : List String) :
    ∀ (ind : String → Int) (code : String),
      (specRows cfg ind ls code).length = countCode code ls := by
  induction ls with
  | nil => intro ind code; simp [specRows, countCode]
  | cons raw rest ih =>
    intro ind code
    simp only [specRows, List.length_append, ih]
    simp only [countCode, List.countP_cons]
    by_cases hreg : lineCode raw = code
    · simp [hreg, Nat.add_comm]
    · simp [hreg]

theorem pad_line_length (cfg : SpedConfig) (c : String) (campos : List String) (raw : String)
    (hcl : cfg.layouts.lookup c = some campos) :
    (pad_line cfg.layouts c raw).length = campos.length := by
  rw [pad_line, hcl]
  simp only
  split
  · rw [List.length_take, List.length_append, List.length_replicate]
    omega
  · rw [List.length_take]
    omega

theorem applyActions_snd_get_inc (acts : List IndexAction) (ind : String → Int)
    (j : Nat) (a : IndexAction) (hj : acts[j]? = some a)
    (hpre : ∀ i b, i < j → acts[i]? = some b → ¬(b.type = .increment ∧ b.key = a.key))
    (ha : a.type = .increment) :
    (applyActions acts ind).2[j]? = some (toString (ind a.key + 1)) := by
  have h := applyActions_snd_get acts ind j a hj hpre
  rw [ha] at h
  exact h

theorem applyActions_snd_get_read (acts : List IndexAction) (ind : String → Int)
    (j : Nat) (a : IndexAction) (hj : acts[j]? = some a)
    (hpre : ∀ i b, i < j → acts[i]? = some b → ¬(b.type = .increment ∧ b.key = a.key))
    (ha : a.type = .read) :
    (applyActions acts ind).2[j]? = some (toString (ind a.key)) := by
  have h := applyActions_snd_get acts ind j a hj hpre
  rw [ha] at h
  exact h

theorem natCastIte (P : Prop) [Decidable P] :
    ((if P then 1 else 0 : Nat) : Int) = if P then (1 : Int) else (0 : Int) := by
  split <;> rfl

/-- The central extraction lemma: over any list of recognized lines, the cell
at base-width + `j` of the accumulated rows of code `c` — the value emitted by
the `j`-th action of `c`, assumed to sit at key `a.key` and not to be preceded
in `c`'s list by an increment of that key — follows the spec-side counter
`specAttributedIndices`, where `p` is the unique record code whose lines bump
the key's counter. -/
theorem specRows_extract (cfg : SpedConfig) (isInc : Bool) (p c : String)
    (campos : List String) (acts : List IndexAction) (j : Nat) (a : IndexAction)
    (hcl : cfg.layouts.lookup c = some campos)
    (hacts : getActs cfg.recordActions c = acts)
    (hj : acts[j]? = some a)
    (hty : a.type = (if isInc then .increment else .read))
    (hpre : ∀ i b, i < j → acts[i]? = some b → ¬(b.type = .increment ∧ b.key = a.key))
    (hcount : ∀ reg, (cfg.layouts.lookup reg).isSome = true →
       incCount (getActs cfg.recordActions reg) a.key = if reg = p then 1 else 0) :
    ∀ (ls : List String), (∀ l ∈ ls, isRecognized cfg l = true) → ∀ ind : String → Int,
      (specRows cfg ind ls c).map (fun r => r[campos.length + j]?)
        = (specAttributedIndices isInc p c (ind a.key) ls).map
            (fun v => some (toString v)) := by
  intro ls
  induction ls with
  | nil => intro _ ind; simp [specRows, specAttributedIndices]
  | cons raw rest ih =>
    intro hrec ind
    have hrecraw : isRecognized cfg raw = true := hrec raw (List.mem_cons_self _ _)
    have hrecrest : ∀ l ∈ rest, isRecognized cfg l = true :=
      fun l hl => hrec l (List.mem_cons_of_mem _ hl)
    have hlook : (cfg.layouts.lookup (lineCode raw)).isSome = true :=
      ((isRecognized_true_iff cfg raw).mp hrecraw).2.2
    simp only [specRows, specAttributedIndices, List.map_append]
    by_cases hreg : lineCode raw = c
    · subst hreg
      rw [hacts]
      have hindup : (applyActions acts ind).1 a.key
          = ind a.key + ((incCount acts a.key : Nat) : Int) :=
        applyActions_fst acts ind a.key
      have hcnt : incCount acts a.key = if lineCode raw = p then 1 else 0 := by
        rw [← hacts]
        exact hcount (lineCode raw) hlook
      have hrow : (pad_line cfg.layouts (lineCode raw) raw
            ++ (applyActions acts ind).2)[campos.length + j]?
          = (applyActions acts ind).2[j]? := by
        rw [List.getElem?_append_right
          (by rw [pad_line_length cfg (lineCode raw) campos raw hcl]; omega)]
        rw [pad_line_length cfg (lineCode raw) campos raw hcl]
        congr 1
        omega
      rw [if_pos rfl, if_pos rfl]
      simp only [List.map_cons, List.map_nil, List.singleton_append]
      rw [ih hrecrest ((applyActions acts ind).1)]
      rw [hindup, hcnt, natCastIte, hrow]
      cases hi : isInc with
      | true =>
        rw [hi, if_pos rfl] at hty
        rw [applyActions_snd_get_inc acts ind j a hj hpre hty]
        rw [if_pos rfl]
      | false =>
        rw [hi] at hty
        simp only [Bool.false_eq_true, if_false] at hty
        rw [applyActions_snd_get_read acts ind j a hj hpre hty]
        simp
    · rw [if_neg hreg, if_neg hreg]
      simp only [List.map_nil, List.nil_append]
      rw [ih hrecrest ((applyActions (getActs cfg.recordActions (lineCode raw)) ind).1)]
      rw [applyActions_fst, hcount (lineCode raw) hlook, natCastIte]

/-! ## Lemmas about the derived record actions -/

theorem lookup_cons_eq {β : Type} (k : String) (v : β) (t : List (String × β)) :
    List.lookup k ((k, v) :: t) = some v := by
  simp [List.lookup_cons]

theorem lookup_cons_ne {β : Type} {a k : String} (h : a ≠ k) (v : β) (t : List (String × β)) :
    List.lookup a ((k, v) :: t) = List.lookup a t := by
  have hb : (a == k) = false := by simpa using h
  simp [List.lookup_cons, hb]

theorem lookup_append {β : Type} (a : String) (l₁ l₂ : List (String × β)) :
    (l₁ ++ l₂).lookup a = ((l₁.lookup a).orElse fun _ => l₂.lookup a) := by
  induction l₁ with
  | nil => simp
  | cons p t ih =>
    obtain ⟨k, v⟩ := p
    by_cases h : a = k
    · subst h
      rw [List.cons_append, lookup_cons_eq, lookup_cons_eq]
      rfl
    · rw [List.cons_append, lookup_cons_ne h, lookup_cons_ne h, ih]

theorem raEnsure_lookup (ra : RA) (code code' : String) :
    (raEnsure ra code).lookup code'
      = if code' = code then ((ra.lookup code').orElse fun _ => some [])
        else ra.lookup code' := by
  rw [raEnsure]
  split
  · rename_i h
    by_cases hc : code' = code
    · subst hc
      cases hl : ra.lookup code' with
      | some acts => simp [hl]
      | none => rw [hl] at h; simp at h
    · simp [hc]
  · rw [lookup_append]
    by_cases hc : code' = code
    · subst hc
      rw [if_pos rfl, lookup_cons_eq]
    · rw [if_neg hc, lookup_cons_ne hc]
      show _ = List.lookup code' ra
      cases hl : ra.lookup code' <;> simp [hl]

theorem getActs_raEnsure (ra : RA) (code code' : String) :
    getActs (raEnsure ra code) code' = getActs ra code' := by
  rw [getActs, getActs, raEnsure_lookup]
  by_cases hc : code' = code
  · rw [if_pos hc]
    cases hl : ra.lookup code' <;> simp [hl]
  · rw [if_neg hc]

theorem raAppend_lookup (ra : RA) (code : String) (a : IndexAction) (code' : String) :
    (raAppend ra code a).lookup code'
      = (ra.lookup code').map (fun l => if code' = code then l ++ [a] else l) := by
  induction ra with
  | nil => rfl
  | cons p t ih =>
    obtain ⟨k, v⟩ := p
    simp only [raAppend, List.map_cons] at ih ⊢
    by_cases hk : k = code
    · rw [if_pos hk]
      by_cases hc : code' = k
      · subst hc
        rw [lookup_cons_eq, lookup_cons_eq]
        simp [hk]
      · rw [lookup_cons_ne hc, lookup_cons_ne hc, ih]
    · rw [if_neg hk]
      by_cases hc : code' = k
      · subst hc
        rw [lookup_cons_eq, lookup_cons_eq]
        simp [hk]
      · rw [lookup_cons_ne hc, lookup_cons_ne hc, ih]

theorem raEnsure_lookup_self (ra : RA) (code : String) :
    (raEnsure ra code).lookup code = some (getActs ra code) := by
  rw [raEnsure_lookup, if_pos rfl, getActs]
  cases hl : ra.lookup code <;> simp [hl]

theorem getActs_addUnique (ra : RA) (code : String) (t : ActionType) (k col : String)
    (code' : String) :
    getActs (addUnique ra code t k col) code'
      = if code' = code then
          (if hasTypeKey (getActs ra code) t k then getActs ra code
           else getActs ra code ++ [⟨t, k, col⟩])
        else getActs ra code' := by
  rw [addUnique]
  simp only [getActs_raEnsure]
  split
  · rename_i h
    rw [getActs_raEnsure]
    by_cases hc : code' = code
    · subst hc
      simp [h]
    · simp [hc]
  · rename_i h
    rw [getActs, raAppend_lookup]
    by_cases hc : code' = code
    · subst hc
      rw [raEnsure_lookup_self]
      simp [h]
    · rw [raEnsure_lookup, if_neg hc, if_neg hc, getActs]
      cases hl : ra.lookup code' <;> simp [hl, hc]

theorem hasTypeKey_append_one (l : List IndexAction) (b : IndexAction)
    (t : ActionType) (k : String) :
    hasTypeKey (l ++ [b]) t k
      = (hasTypeKey l t k || decide (b.type = t ∧ b.key = k)) := by
  simp [hasTypeKey]

theorem hasTypeKey_addUnique (ra : RA) (code : String) (t : ActionType) (k col : String)
    (code' : String) (t' : ActionType) (k' : String) :
    hasTypeKey (getActs (addUnique ra code t k col) code') t' k'
      = (hasTypeKey (getActs ra code') t' k'
         || (decide (code' = code) && decide (t' = t) && decide (k' = k))) := by
  rw [getActs_addUnique]
  by_cases hc : code' = code
  · subst hc
    rw [if_pos rfl]
    by_cases htk : t' = t ∧ k' = k
    · obtain ⟨ht, hk⟩ := htk
      subst ht; subst hk
      split
      · rename_i h
        simp [h]
      · rename_i h
        simp [hasTypeKey_append_one]
    · split
      · rcases Decidable.not_and_iff_or_not.mp htk with h | h <;> simp [h]
      · rw [hasTypeKey_append_one]
        have hsym : ¬(t = t' ∧ k = k') := fun hp => htk ⟨hp.1.symm, hp.2.symm⟩
        rcases Decidable.not_and_iff_or_not.mp htk with h | h <;> simp [h, hsym]
  · rw [if_neg hc]
    simp [hc]

theorem hasTypeKey_childFold (children : List String) (pk pcol : String) :
    ∀ (ra : RA) (code' : String) (t' : ActionType) (k' : String),
      hasTypeKey
          (getActs (children.foldl (fun ra child => addUnique ra child .read pk pcol) ra) code')
          t' k'
        = (hasTypeKey (getActs ra code') t' k'
           || (decide (code' ∈ children) && decide (t' = ActionType.read) && decide (k' = pk))) := by
  induction children with
  | nil => intro ra code' t' k'; simp
  | cons child ct ih =>
    intro ra code' t' k'
    rw [List.foldl_cons, ih, hasTypeKey_addUnique]
    by_cases h1 : code' = child <;> by_cases h2 : t' = ActionType.read <;>
      by_cases h3 : k' = pk <;>
      simp [h1, h2, h3, List.mem_cons, Bool.or_assoc]

theorem hasTypeKey_addGroupActions (g : GroupInfo) (ra : RA) (code' : String)
    (t' : ActionType) (k' : String) :
    hasTypeKey (getActs (addGroupActions ra g) code') t' k' = true
      ↔ (hasTypeKey (getActs ra code') t' k' = true ∨ groupRole g code' t' k') := by
  simp only [addGroupActions]
  rw [hasTypeKey_childFold]
  split_ifs <;>
    simp only [hasTypeKey_addUnique] <;>
    simp only [Bool.or_eq_true, Bool.and_eq_true, decide_eq_true_eq, groupRole] <;>
    tauto

theorem hasTypeKey_derive_aux (G : List GroupInfo) :
    ∀ (ra : RA) (code : String) (t : ActionType) (k : String),
      hasTypeKey (getActs (G.foldl addGroupActions ra) code) t k = true
        ↔ (hasTypeKey (getActs ra code) t k = true ∨ ∃ g ∈ G, groupRole g code t k) := by
  induction G with
  | nil => intro ra code t k; simp
  | cons g G ih =>
    intro ra code t k
    rw [List.foldl_cons, ih, hasTypeKey_addGroupActions]
    simp only [List.mem_cons]
    constructor
    · rintro ((h | h) | ⟨g', hg', h⟩)
      · exact Or.inl h
      · exact Or.inr ⟨g, Or.inl rfl, h⟩
      · exact Or.inr ⟨g', Or.inr hg', h⟩
    · rintro (h | ⟨g', (rfl | hg'), h⟩)
      · exact Or.inl (Or.inl h)
      · exact Or.inl (Or.inr h)
      · exact Or.inr ⟨g', hg', h⟩

theorem hasTypeKey_deriveRecordActions (G : List GroupInfo) (code : String)
    (t : ActionType) (k : String) :
    hasTypeKey (getActs (deriveRecordActions G) code) t k = true
      ↔ ∃ g ∈ G, groupRole g code t k := by
  rw [deriveRecordActions, hasTypeKey_derive_aux]
  simp [getActs, hasTypeKey]

/-- Every increment action a code carries is keyed by the code's own
lowercased name — true of every derived map because the constructor only ever
inserts increments with `key = code.lower()`. -/
def IncKeyInv (ra : RA) : Prop :=
  ∀ code a, a ∈ getActs ra code → a.type = .increment → a.key = (pyLower code)

/-- Every action list of the map is free of duplicate (type, key) pairs. -/
def NoDupInv (ra : RA) : Prop :=
  ∀ code, NoDupTK (getActs ra code)

theorem incKeyInv_addUnique (ra : RA) (code : String) (t : ActionType) (k col : String)
    (h : IncKeyInv ra) (hk : t = .increment → k = (pyLower code)) :
    IncKeyInv (addUnique ra code t k col) := by
  intro code' a ha hat
  rw [getActs_addUnique] at ha
  by_cases hc : code' = code
  · rw [if_pos hc] at ha
    subst hc
    split at ha
    · exact h code' a ha hat
    · rcases List.mem_append.mp ha with hmem | hmem
      · exact h code' a hmem hat
      · rcases List.mem_singleton.mp hmem with rfl
        exact hk hat
  · rw [if_neg hc] at ha
    exact h code' a ha hat

theorem noDupInv_addUnique (ra : RA) (code : String) (t : ActionType) (k col : String)
    (h : NoDupInv ra) : NoDupInv (addUnique ra code t k col) := by
  intro code'
  rw [NoDupTK, getActs_addUnique]
  by_cases hc : code' = code
  · rw [if_pos hc]
    split
    · exact h code
    · rename_i hno
      rw [List.pairwise_append]
      refine ⟨h code, List.pairwise_singleton _ _, ?_⟩
      intro a ha b hb
      rcases List.mem_singleton.mp hb with rfl
      intro ⟨h1, h2⟩
      have : hasTypeKey (getActs ra code) t k = true := by
        rw [hasTypeKey, List.any_eq_true]
        exact ⟨a, ha, by simp [h1, h2]⟩
      exact hno this
  · rw [if_neg hc]
    exact h code'

theorem incKeyInv_childFold (children : List String) (pk pcol : String) :
    ∀ (ra : RA), IncKeyInv ra →
      IncKeyInv (children.foldl (fun ra child => addUnique ra child .read pk pcol) ra) := by
  induction children with
  | nil => intro ra h; exact h
  | cons child ct ih =>
    intro ra h
    rw [List.foldl_cons]
    exact ih _ (incKeyInv_addUnique ra child .read pk pcol h (by intro hc; cases hc))

theorem noDupInv_childFold (children : List String) (pk pcol : String) :
    ∀ (ra : RA), NoDupInv ra →
      NoDupInv (children.foldl (fun ra child => addUnique ra child .read pk pcol) ra) := by
  induction children with
  | nil => intro ra h; exact h
  | cons child ct ih =>
    intro ra h
    rw [List.foldl_cons]
    exact ih _ (noDupInv_addUnique ra child .read pk pcol h)

theorem incKeyInv_addGroupActions (ra : RA) (g : GroupInfo) (h : IncKeyInv ra) :
    IncKeyInv (addGroupActions ra g) := by
  rw [addGroupActions]
  apply incKeyInv_childFold
  split_ifs with h1 h2
  · exact incKeyInv_addUnique _ _ _ _ _
      (incKeyInv_addUnique _ _ _ _ _
        (incKeyInv_addUnique _ _ _ _ _ h (fun _ => rfl)) (by intro hc; cases hc))
      (fun _ => rfl)
  · exact incKeyInv_addUnique _ _ _ _ _
      (incKeyInv_addUnique _ _ _ _ _ h (fun _ => rfl)) (fun _ => rfl)
  · exact incKeyInv_addUnique _ _ _ _ _
      (incKeyInv_addUnique _ _ _ _ _ h (fun _ => rfl)) (by intro hc; cases hc)
  · exact incKeyInv_addUnique _ _ _ _ _ h (fun _ => rfl)

theorem noDupInv_addGroupActions (ra : RA) (g : GroupInfo) (h : NoDupInv ra) :
    NoDupInv (addGroupActions ra g) := by
  rw [addGroupActions]
  apply noDupInv_childFold
  split_ifs <;>
    repeat' apply noDupInv_addUnique
  repeat' exact h

theorem incKeyInv_deriveRecordActions (G : List GroupInfo) :
    IncKeyInv (deriveRecordActions G) := by
  rw [deriveRecordActions]
  have base : IncKeyInv ([] : RA) := by
    intro code a ha
    simp [getActs] at ha
  revert base
  generalize ([] : RA) = ra
  intro base
  induction G generalizing ra with
  | nil => exact base
  | cons g G ih =>
    rw [List.foldl_cons]
    exact ih _ (incKeyInv_addGroupActions ra g base)

theorem noDupInv_deriveRecordActions (G : List GroupInfo) :
    NoDupInv (deriveRecordActions G) := by
  rw [deriveRecordActions]
  have base : NoDupInv ([] : RA) := by
    intro code
    simp [getActs, NoDupTK]
  revert base
  generalize ([] : RA) = ra
  intro base
  induction G generalizing ra with
  | nil => exact base
  | cons g G ih =>
    rw [List.foldl_cons]
    exact ih _ (noDupInv_addGroupActions ra g base)

/-! ## Counting increments in the derived map -/

theorem countP_le_one_of_pairwise (l : List IndexAction) (p : IndexAction → Bool)
    (hp : NoDupTK l)
    (hcompat : ∀ x y, p x = true → p y = true → x.type = y.type ∧ x.key = y.key) :
    l.countP p ≤ 1 := by
  induction l with
  | nil => simp
  | cons a t ih =>
    rw [NoDupTK, List.pairwise_cons] at hp
    rw [List.countP_cons]
    by_cases hpa : p a = true
    · have hz : t.countP p = 0 := by
        rw [List.countP_eq_zero]
        intro b hb hpb
        exact hp.1 b hb (hcompat a b hpa hpb)
      simp [hz, hpa]
    · have := ih hp.2
      simp [hpa]
      omega

theorem incCount_le_one (acts : List IndexAction) (k : String) (h : NoDupTK acts) :
    incCount acts k ≤ 1 := by
  apply countP_le_one_of_pairwise acts _ h
  intro x y hx hy
  simp only [decide_eq_true_eq] at hx hy
  exact ⟨hx.1.trans hy.1.symm, hx.2.trans hy.2.symm⟩

theorem incCount_pos_of_mem (acts : List IndexAction) (a : IndexAction)
    (ha : a ∈ acts) (hat : a.type = .increment) : 1 ≤ incCount acts a.key := by
  rw [incCount]
  refine List.countP_pos_iff.mpr ⟨a, ha, ?_⟩
  simp [hat]

theorem incCount_eq_zero_iff (acts : List IndexAction) (k : String) :
    incCount acts k = 0 ↔ ∀ a ∈ acts, ¬(a.type = .increment ∧ a.key = k) := by
  rw [incCount, List.countP_eq_zero]
  simp

theorem mem_keys_of_lookup_isSome {β : Type} (l : List (String × β)) (a : String)
    (h : (l.lookup a).isSome = true) : a ∈ l.map Prod.fst := by
  induction l with
  | nil => simp at h
  | cons p t ih =>
    obtain ⟨k, v⟩ := p
    by_cases hk : a = k
    · simp [hk]
    · rw [lookup_cons_ne hk] at h
      simp [ih h]

theorem getActs_lookup_isSome (ra : RA) (c : String) (h : getActs ra c ≠ []) :
    (ra.lookup c).isSome = true := by
  rw [getActs] at h
  cases hl : ra.lookup c with
  | some acts => simp
  | none => rw [hl] at h; simp at h

/-- All record codes the default registries mention. -/
def allCodes : List String :=
  (LAYOUTS_L.map Prod.fst ++ (deriveRecordActions GROUPS_L).map Prod.fst).dedup

set_option maxRecDepth 8000 in
theorem allCodes_map_lower_nodup : (allCodes.map pyLower).Nodup := by decide

theorem allCodes_lower_inj : ∀ r₁ ∈ allCodes, ∀ r₂ ∈ allCodes,
    (pyLower r₁) = (pyLower r₂) → r₁ = r₂ :=
  fun _ h₁ _ h₂ h => List.inj_on_of_nodup_map allCodes_map_lower_nodup h₁ h₂ h

/-- In the default configuration, the only layout code whose lines bump the
counter key of an increment action of code `c` is `c` itself. -/
theorem default_hcount (c : String) (a : IndexAction)
    (hmem : a ∈ getActs (deriveRecordActions GROUPS_L) c) (hat : a.type = .increment) :
    ∀ reg, (LAYOUTS_L.lookup reg).isSome = true →
      incCount (getActs (deriveRecordActions GROUPS_L) reg) a.key
        = if reg = c then 1 else 0 := by
  have hkey : a.key = (pyLower c) :=
    incKeyInv_deriveRecordActions GROUPS_L c a hmem hat
  have hcmem : c ∈ allCodes := by
    have : getActs (deriveRecordActions GROUPS_L) c ≠ [] := by
      intro h
      rw [h] at hmem
      simp at hmem
    exact List.mem_dedup.mpr (List.mem_append.mpr (Or.inr
      (mem_keys_of_lookup_isSome _ c (getActs_lookup_isSome _ c this))))
  intro reg hreg
  by_cases hc : reg = c
  · rw [if_pos hc, hc]
    have h1 : 1 ≤ incCount (getActs (deriveRecordActions GROUPS_L) c) a.key :=
      incCount_pos_of_mem _ a hmem hat
    have h2 : incCount (getActs (deriveRecordActions GROUPS_L) c) a.key ≤ 1 :=
      incCount_le_one _ _ (noDupInv_deriveRecordActions GROUPS_L c)
    omega
  · rw [if_neg hc]
    rw [incCount_eq_zero_iff]
    rintro b hb ⟨hbt, hbk⟩
    have hbkey : b.key = (pyLower reg) :=
      incKeyInv_deriveRecordActions GROUPS_L reg b hb hbt
    have hregmem : reg ∈ allCodes :=
      List.mem_dedup.mpr (List.mem_append.mpr (Or.inl (mem_keys_of_lookup_isSome _ reg hreg)))
    exact hc (allCodes_lower_inj reg hregmem c hcmem (by rw [← hbkey, hbk, hkey]))

/-! ## From a finished lenient pass to the spec-side views -/

theorem parse_ok_rows (cfg : SpedConfig) (lines : List String) (s : ParserState)
    (h : parse cfg false lines = .ok s) (code : String) :
    s.core.rows code = specRows cfg (fun _ => (-1 : Int)) (recLines cfg lines) code := by
  rw [parse_false_eq] at h
  have hs := Except.ok.inj h
  rw [← hs, lenientRun_core, coreRun_rows]
  rfl

theorem recLines_mem_recognized (cfg : SpedConfig) (lines : List String) :
    ∀ l ∈ recLines cfg lines, isRecognized cfg l = true :=
  fun l hl => (List.mem_filter.mp hl).2

theorem specRows_eq_nil_of_lookup_none (cfg : SpedConfig) (c : String)
    (hcl : cfg.layouts.lookup c = none) :
    ∀ ls, (∀ l ∈ ls, isRecognized cfg l = true) → ∀ ind,
      specRows cfg ind ls c = [] := by
  intro ls
  induction ls with
  | nil => intro _ ind; rfl
  | cons raw rest ih =>
    intro hrec ind
    simp only [specRows]
    have hne : lineCode raw ≠ c := by
      intro h
      have hx := ((isRecognized_true_iff cfg raw).mp (hrec raw (List.mem_cons_self _ _))).2.2
      rw [h, hcl] at hx
      simp at hx
    rw [if_neg hne, List.nil_append]
    exact ih (fun l hl => hrec l (List.mem_cons_of_mem _ hl)) _

theorem specAttributedIndices_inc_closed (c : String) (ls : List String) :
    ∀ v : Int, specAttributedIndices true c c v ls
      = (List.range (countCode c ls)).map (fun i : Nat => v + 1 + (i : Int)) := by
  induction ls with
  | nil => intro v; simp [specAttributedIndices, countCode]
  | cons raw rest ih =>
    intro v
    simp only [specAttributedIndices, countCode, List.countP_cons]
    by_cases hreg : lineCode raw = c
    · simp only [hreg, if_pos rfl, if_true, ite_true]
      rw [ih (v + 1)]
      norm_num
      rw [List.range_succ_eq_map]
      simp only [List.map_cons, List.map_map, List.singleton_append, List.cons.injEq]
      constructor
      · simp
      · apply List.map_congr_left
        intro i _
        simp [Function.comp]
        ring
    · simp only [hreg, if_false, ite_false]
      norm_num
      rw [ih v]
      rfl

theorem mem_of_getElem?_some {α : Type} {l : List α} {a : α} {n : Nat}
    (h : l[n]? = some a) : a ∈ l := by
  obtain ⟨hlt, rfl⟩ := List.getElem?_eq_some.mp h
  exact List.getElem_mem hlt

set_option maxRecDepth 8000 in
/-- Shared helper: the own-counter column of any code with an increment
action enumerates 0, 1, 2, … over the accumulated rows of a lenient pass. -/
theorem ownCounterEnumeration (lines : List String) (s : ParserState)
    (c : String) (j : Nat) (a : IndexAction)
    (hparse : parse defaultCfg false lines = .ok s)
    (hj : (getActs defaultCfg.recordActions c)[j]? = some a)
    (hinc : a.type = .increment) :
    (s.core.rows c).map (fun r => r[baseLen defaultCfg c + j]?)
      = (List.range (s.core.rows c).length).map
          (fun i : Nat => some (toString (i : Int))) := by
  have hrows := parse_ok_rows defaultCfg lines s hparse c
  have hrec := recLines_mem_recognized defaultCfg lines
  have hmem : a ∈ getActs defaultCfg.recordActions c := mem_of_getElem?_some hj
  cases hcl : defaultCfg.layouts.lookup c with
  | none =>
    rw [hrows, specRows_eq_nil_of_lookup_none defaultCfg c hcl _ hrec]
    simp
  | some campos =>
    have hbase : baseLen defaultCfg c = campos.length := by
      rw [baseLen, hcl]
      rfl
    have hnodup : NoDupTK (getActs defaultCfg.recordActions c) :=
      noDupInv_deriveRecordActions GROUPS_L c
    have hpre : ∀ i b, i < j → (getActs defaultCfg.recordActions c)[i]? = some b →
        ¬(b.type = .increment ∧ b.key = a.key) := by
      intro i b hij hib hb
      obtain ⟨hjlt, hja⟩ := List.getElem?_eq_some.mp hj
      obtain ⟨hilt, hib'⟩ := List.getElem?_eq_some.mp hib
      have hpw := (List.pairwise_iff_getElem.mp hnodup) i j hilt hjlt hij
      rw [hib', hja] at hpw
      exact hpw ⟨by rw [hb.1, hinc], hb.2⟩
    have hcount := default_hcount c a hmem hinc
    have hext := specRows_extract defaultCfg true c c campos
      (getActs defaultCfg.recordActions c) j a hcl rfl hj (by simp [hinc]) hpre hcount
      (recLines defaultCfg lines) hrec (fun _ => (-1 : Int))
    rw [hrows, hbase, hext, specAttributedIndices_inc_closed]
    rw [show (specRows defaultCfg (fun _ => (-1 : Int)) (recLines defaultCfg lines) c).length
        = countCode c (recLines defaultCfg lines) from specRows_length defaultCfg _ _ _]
    rw [List.map_map]
    apply List.map_congr_left
    intro i _
    simp only [Function.comp]
    have : (-1 : Int) + 1 + (i : Int) = (i : Int) := by omega
    rw [this]

set_option maxRecDepth 8000 in
/-- C2: For every input file parsed with the default registries, and every
record code `c` that has an increment action (parent or header of some group,
at position `j` of its derived action list), the own-counter column of `c`'s
accumulated rows — the cell at base-width + `j` — reads exactly
`"0", "1", "2", …` in file order: strictly increasing by one starting at
zero, with no gaps and no repeats, because the counter is seeded at −1 and
incremented exactly once per row of that code. -/
theorem claim_C2_index_monotonicity (lines : List String) (s : ParserState)
    (c : String) (j : Nat) (a : IndexAction)
    (hparse : parse defaultCfg false lines = .ok s)
    (hj : (getActs defaultCfg.recordActions c)[j]? = some a)
    (hinc : a.type = .increment) :
    (s.core.rows c).map (fun r => r[baseLen defaultCfg c + j]?)
      = (List.range (s.core.rows c).length).map
          (fun i : Nat => some (toString (i : Int))) :=
  ownCounterEnumeration lines s c j a hparse hj hinc

set_option maxRecDepth 40000 in
/-- Witness for C2: on the concrete `testLines` file, the parent code C100
(whose derived action list starts with its increment action) satisfies the
claim, its two accumulated rows carrying own-index cells "0" and "1". -/
theorem claim_C2_index_monotonicity_witness :
    parse defaultCfg false testLines = .ok testState
    ∧ (getActs defaultCfg.recordActions "C100")[0]?
        = some ⟨.increment, "c100", "C100_INDEX"⟩
    ∧ (testState.core.rows "C100").map (fun r => r[baseLen defaultCfg "C100" + 0]?)
        = (List.range (testState.core.rows "C100").length).map
            (fun i : Nat => some (toString (i : Int))) :=
  ⟨parse_false_eq defaultCfg testLines, by decide,
   claim_C2_index_monotonicity testLines testState "C100" 0
     ⟨.increment, "c100", "C100_INDEX"⟩ (parse_false_eq defaultCfg testLines)
     (by decide) (by decide)⟩

/-! ## Machinery for the parent-attribution claim -/

theorem dfEq (a b : DataFrame) (h1 : a.cols = b.cols) (h2 : a.rows = b.rows) :
    a = b := by
  cases a; cases b; simp_all

theorem flatMap_congr_mem {α β : Type} (l : List α) (f g : α → List β)
    (h : ∀ a ∈ l, f a = g a) : l.flatMap f = l.flatMap g := by
  induction l with
  | nil => rfl
  | cons a t ih =>
    simp only [List.flatMap_cons]
    rw [h a (List.mem_cons_self _ _), ih (fun b hb => h b (List.mem_cons_of_mem _ hb))]

theorem cellKeyEq_eq (k x : Option String) (h : cellKeyEq k x = true) : x = k := by
  cases k with
  | none => simp [cellKeyEq] at h
  | some a =>
    cases x with
    | none => simp [cellKeyEq] at h
    | some b =>
      simp only [cellKeyEq, beq_iff_eq] at h
      rw [h]

theorem leftMerge_rows (L R : DataFrame) (key : String) :
    (leftMerge L R key).rows = L.rows.flatMap (fun r =>
      let k := getCell L.cols r key
      let ms := R.rows.filter (fun rr => cellKeyEq k (getCell R.cols rr key))
      match ms with
      | [] => [r ++ (R.cols.filter (fun c => decide (c ≠ key))).map (fun _ => none)]
      | _ => ms.map (fun rr => r ++ (R.cols.filter (fun c => decide (c ≠ key))).map
          (fun c => getCell R.cols rr c))) := rfl

theorem leftMerge_cols (L R : DataFrame) (key : String) :
    (leftMerge L R key).cols = L.cols ++ R.cols.filter (fun c => decide (c ≠ key)) := rfl

/-- A right-table row whose join-key cell is `"-1"` contributes nothing to a
left join whose left side never carries key `"-1"`: filtering such rows away
leaves the join output unchanged. -/
theorem leftMerge_filter_unmatched (L R : DataFrame) (key : String)
    (hK : ∀ r ∈ L.rows, getCell L.cols r key ≠ some "-1") :
    leftMerge L ⟨R.cols, R.rows.filter
        (fun rr => decide (getCell R.cols rr key ≠ some "-1"))⟩ key
      = leftMerge L R key := by
  apply dfEq
  · rfl
  · rw [leftMerge_rows, leftMerge_rows]
    apply flatMap_congr_mem
    intro r hr
    have hms : ((⟨R.cols, R.rows.filter
          (fun rr => decide (getCell R.cols rr key ≠ some "-1"))⟩ : DataFrame)).rows.filter
          (fun rr => cellKeyEq (getCell L.cols r key) (getCell R.cols rr key))
        = R.rows.filter
          (fun rr => cellKeyEq (getCell L.cols r key) (getCell R.cols rr key)) := by
      show (R.rows.filter _).filter _ = _
      rw [List.filter_filter]
      apply List.filter_congr
      intro rr _
      by_cases hm : cellKeyEq (getCell L.cols r key) (getCell R.cols rr key) = true
      · have hx := cellKeyEq_eq _ _ hm
        have hne : getCell R.cols rr key ≠ some "-1" := by
          rw [hx]
          exact hK r hr
        simp [hm, hne]
      · simp [Bool.of_not_eq_true hm]
    simp only
    rw [hms]

set_option maxRecDepth 40000 in
theorem default_child_actions : ∀ g ∈ GROUPS_L, ∀ c ∈ g.children,
    getActs (deriveRecordActions GROUPS_L) c
      = [⟨.read, pyLower g.parent, g.parentIdxName⟩] := by decide

set_option maxRecDepth 40000 in
theorem default_parent_action : ∀ g ∈ GROUPS_L,
    (getActs (deriveRecordActions GROUPS_L) g.parent)[0]?
      = some ⟨.increment, pyLower g.parent, g.parentIdxName⟩ := by decide

set_option maxRecDepth 40000 in
theorem default_child_layout : ∀ g ∈ GROUPS_L, ∀ c ∈ g.children,
    (LAYOUTS_L.lookup c).isSome = true := by decide

theorem default_hcount_parent (p : String)
    (hp : hasTypeKey (getActs (deriveRecordActions GROUPS_L) p)
        .increment (pyLower p) = true) :
    ∀ reg, (LAYOUTS_L.lookup reg).isSome = true →
      incCount (getActs (deriveRecordActions GROUPS_L) reg) (pyLower p)
        = if reg = p then 1 else 0 := by
  rw [hasTypeKey, List.any_eq_true] at hp
  obtain ⟨ap, hmem, hdec⟩ := hp
  rw [decide_eq_true_eq] at hdec
  have h := default_hcount p ap hmem hdec.1
  rw [hdec.2] at h
  exact h

theorem specAttributedIndices_read_const (p c : String) (ls : List String) :
    ∀ v : Int, countCode p ls = 0 →
      specAttributedIndices false p c v ls = List.replicate (countCode c ls) v := by
  induction ls with
  | nil => intro v _; simp [specAttributedIndices, countCode]
  | cons raw rest ih =>
    intro v h0
    rw [countCode, List.countP_cons] at h0
    have hnp : lineCode raw ≠ p := by
      intro h
      simp [h] at h0
    have hrest : countCode p rest = 0 := by
      rw [countCode]
      omega
    simp only [specAttributedIndices, countCode, List.countP_cons]
    rw [if_neg hnp]
    by_cases hreg : lineCode raw = c
    · rw [if_pos hreg]
      have := ih v hrest
      rw [countCode] at this
      simp only [Bool.false_eq_true, if_false, Nat.add_zero, List.singleton_append]
      rw [show v + (0 : Int) = v by ring, this]
      simp [hreg, List.replicate_succ]
    · rw [if_neg hreg]
      have := ih v hrest
      rw [countCode] at this
      simp only [List.nil_append]
      rw [show v + (0 : Int) = v by ring, this]
      simp [hreg]

set_option maxRecDepth 8000 in
theorem defaultCfg_layouts : defaultCfg.layouts = LAYOUTS_L := rfl

set_option maxRecDepth 8000 in
theorem defaultCfg_recordActions :
    defaultCfg.recordActions = deriveRecordActions GROUPS_L := rfl

set_option maxRecDepth 8000 in
/-- C1: For every input file parsed with the default registries, every
consolidation group `g` and every child code `c` of `g`: (i) the
parent-index cell of each accumulated `c` row equals the parent counter's
value at the moment the child line was processed — the counter is seeded at
−1 and bumped once per parent line, so each child is attributed to the
nearest preceding parent row and never to a later one; (ii) in a file with
no parent rows of the group every child row is attributed index "-1";
(iii) the parent rows' own-index cells enumerate "0", "1", …, so no real
parent carries index "-1"; and (iv) a right-table row keyed "-1" is absent
from the left-join output whenever the left table never carries key "-1" —
so an orphan child row matches no parent in the consolidation join. -/
theorem claim_C1_parent_attribution (lines : List String) (s : ParserState)
    (g : GroupInfo) (c : String)
    (hg : g ∈ GROUPS_L) (hc : c ∈ g.children)
    (hparse : parse defaultCfg false lines = .ok s) :
    ((s.core.rows c).map (fun r => r[baseLen defaultCfg c]?)
        = (specAttributedIndices false g.parent c (-1) (recLines defaultCfg lines)).map
            (fun v => some (toString v)))
    ∧ (countCode g.parent (recLines defaultCfg lines) = 0 →
        (s.core.rows c).map (fun r => r[baseLen defaultCfg c]?)
          = List.replicate (s.core.rows c).length (some (toString (-1 : Int))))
    ∧ ((s.core.rows g.parent).map (fun r => r[baseLen defaultCfg g.parent]?)
        = (List.range (s.core.rows g.parent).length).map
            (fun i : Nat => some (toString (i : Int))))
    ∧ (∀ (L R : DataFrame) (key : String),
        (∀ r ∈ L.rows, getCell L.cols r key ≠ some "-1") →
        leftMerge L ⟨R.cols, R.rows.filter
            (fun rr => decide (getCell R.cols rr key ≠ some "-1"))⟩ key
          = leftMerge L R key) := by
  have hrows := parse_ok_rows defaultCfg lines s hparse c
  have hrec := recLines_mem_recognized defaultCfg lines
  have hacts : getActs defaultCfg.recordActions c
      = [⟨.read, pyLower g.parent, g.parentIdxName⟩] := by
    rw [defaultCfg_recordActions]
    exact default_child_actions g hg c hc
  have hlay : (defaultCfg.layouts.lookup c).isSome = true := by
    rw [defaultCfg_layouts]
    exact default_child_layout g hg c hc
  obtain ⟨campos, hcl⟩ := Option.isSome_iff_exists.mp hlay
  have hbase : baseLen defaultCfg c = campos.length := by
    simp [baseLen, hcl]
  have hpar : hasTypeKey (getActs (deriveRecordActions GROUPS_L) g.parent)
      .increment (pyLower g.parent) = true :=
    (hasTypeKey_deriveRecordActions GROUPS_L g.parent .increment (pyLower g.parent)).mpr
      ⟨g, hg, Or.inl ⟨rfl, rfl, rfl⟩⟩
  have hcount : ∀ reg, (defaultCfg.layouts.lookup reg).isSome = true →
      incCount (getActs defaultCfg.recordActions reg) (pyLower g.parent)
        = if reg = g.parent then 1 else 0 := by
    rw [defaultCfg_layouts, defaultCfg_recordActions]
    exact default_hcount_parent g.parent hpar
  have hext := specRows_extract defaultCfg false g.parent c campos
    (getActs defaultCfg.recordActions c) 0 ⟨.read, pyLower g.parent, g.parentIdxName⟩
    hcl rfl (by rw [hacts]; rfl) rfl (by intro i b hi _; omega)
    hcount (recLines defaultCfg lines) hrec (fun _ => (-1 : Int))
  have hmap : (s.core.rows c).map (fun r => r[baseLen defaultCfg c]?)
      = (specAttributedIndices false g.parent c (-1) (recLines defaultCfg lines)).map
          (fun v => some (toString v)) := by
    rw [hrows, hbase]
    exact hext
  refine ⟨hmap, ?_, ?_, ?_⟩
  · intro h0
    rw [hmap, specAttributedIndices_read_const g.parent c _ (-1) h0, List.map_replicate]
    congr 1
    rw [hrows, specRows_length]
  · exact ownCounterEnumeration lines s g.parent 0
      ⟨.increment, pyLower g.parent, g.parentIdxName⟩ hparse
      (by rw [defaultCfg_recordActions]; exact default_parent_action g hg) rfl
  · exact fun L R key hK => leftMerge_filter_unmatched L R key hK

set_option maxRecDepth 100000 in
/-- Witness for C1: on `testLines` (a C170 child line precedes any C100
parent), the C group and child C170 satisfy the claim, and the four
accumulated C170 rows carry parent-index cells "-1", "0", "0", "1" — the
orphan first child reads −1, the others the nearest preceding parent. -/
theorem claim_C1_parent_attribution_witness :
    (⟨"C100", ["C170", "C190", "C195", "C197"], "C100_INDEX", "C010_INDEX", "C010"⟩
        : GroupInfo) ∈ GROUPS_L
    ∧ "C170" ∈ (⟨"C100", ["C170", "C190", "C195", "C197"], "C100_INDEX", "C010_INDEX",
        "C010"⟩ : GroupInfo).children
    ∧ parse defaultCfg false testLines = .ok testState
    ∧ ((testState.core.rows "C170").map (fun r => r[baseLen defaultCfg "C170"]?)
        = (specAttributedIndices false "C100" "C170" (-1)
            (recLines defaultCfg testLines)).map (fun v => some (toString v)))
    ∧ (testState.core.rows "C170").map (fun r => r[baseLen defaultCfg "C170"]?)
        = [some "-1", some "0", some "0", some "1"] :=
  ⟨by decide, by decide, parse_false_eq defaultCfg testLines,
   (claim_C1_parent_attribution testLines testState
     ⟨"C100", ["C170", "C190", "C195", "C197"], "C100_INDEX", "C010_INDEX", "C010"⟩
     "C170" (by decide) (by decide) (parse_false_eq defaultCfg testLines)).1,
   by decide⟩

/-! ## The numeric/locale converter claims -/

theorem convert_brl : convertNumericValue "1.234,56" = some (123456 / 100 : ℚ) := by
  have h1 : pyStrip (commaToDot (stripDots "1.234,56")) = "1234.56" := by decide
  have h2 : "1234.56".data = ['1', '2', '3', '4', '.', '5', '6'] := by decide
  simp only [convertNumericValue, h1, parseDecimal, h2]
  rw [if_neg (by decide), if_neg (by decide)]
  have h3 : List.takeWhile Char.isDigit ['1', '2', '3', '4', '.', '5', '6']
      = ['1', '2', '3', '4'] := by decide
  have h4 : List.dropWhile Char.isDigit ['1', '2', '3', '4', '.', '5', '6']
      = ['.', '5', '6'] := by decide
  simp only [parseUnsignedDecimal, h3, h4, if_true]
  rw [if_pos (by decide)]
  have h5 : digitsNat ['1', '2', '3', '4'] = 1234 := by decide
  have h6 : digitsNat ['5', '6'] = 56 := by decide
  simp only [digitsVal, h5, h6]
  norm_num

theorem convert_empty : convertNumericValue "" = none := by
  have h1 : pyStrip (commaToDot (stripDots "")) = "" := by decide
  simp only [convertNumericValue, h1, parseDecimal]
  decide

theorem convert_abc : convertNumericValue "abc" = none := by
  have h1 : pyStrip (commaToDot (stripDots "abc")) = "abc" := by decide
  have h2 : "abc".data = ['a', 'b', 'c'] := by decide
  simp only [convertNumericValue, h1, parseDecimal, h2]
  rw [if_neg (by decide), if_neg (by decide)]
  have h3 : List.takeWhile Char.isDigit ['a', 'b', 'c'] = [] := by decide
  have h4 : List.dropWhile Char.isDigit ['a', 'b', 'c'] = ['a', 'b', 'c'] := by decide
  simp only [parseUnsignedDecimal, h3, h4]
  rw [if_neg (by decide)]

/-- C5: The numeric/locale conversion is total: `"1.234,56"` converts to the
numeric value 1234.56, `""` converts to null, `"abc"` converts to null and
raises the logged null (conversion-failure) count of its column by exactly
one; and for no table and numeric-column list does the conversion raise or
change the row count of the pass. -/
theorem claim_C5_numeric_conversion_total :
    convertNumericValue "1.234,56" = some (123456 / 100 : ℚ)
    ∧ convertNumericValue "" = none
    ∧ convertNumericValue "abc" = none
    ∧ (∀ va vb : List String, nullCount (va ++ "abc" :: vb) = nullCount (va ++ vb) + 1)
    ∧ (∀ (cols columns : List String) (rows : List (List String)),
        (convert_numeric_columns cols columns rows).length = rows.length) := by
  refine ⟨convert_brl, convert_empty, convert_abc, ?_, ?_⟩
  · intro va vb
    simp [nullCount, convertedColumn, List.countP_append, List.countP_cons, convert_abc]
    omega
  · intro cols columns rows
    simp [convert_numeric_columns]

/-! ## The metrics accessor claims -/

/-- C10: The derived-rate accessors are total at the public interface: the
success-rate accessor returns 0.0 whenever the total-lines counter is 0
(never dividing by zero), and the lines-per-second accessor returns 0.0
whenever the elapsed processing time is 0. -/
theorem claim_C10_metrics_accessors_total :
    (∀ m : MetricsState, m.total_lines = 0 → taxa_sucesso m = 0)
    ∧ (∀ (m : MetricsState) (now : ℚ), tempo_processamento m now = 0 →
        linhas_por_segundo m now = 0) := by
  constructor
  · intro m h
    rw [taxa_sucesso, if_pos h]
  · intro m now h
    rw [linhas_por_segundo]
    simp [h]

/-- Witness for C10: a metrics state with zero total lines reports a 0.0
success rate, and one whose start and end stamps coincide reports 0.0 lines
per second. -/
theorem claim_C10_metrics_accessors_total_witness :
    taxa_sucesso ⟨0, 0, 0, 0, 1, 2⟩ = 0
    ∧ linhas_por_segundo ⟨10, 8, 1, 1, 5, 5⟩ 9 = 0 :=
  ⟨claim_C10_metrics_accessors_total.1 ⟨0, 0, 0, 0, 1, 2⟩ rfl,
   claim_C10_metrics_accessors_total.2 ⟨10, 8, 1, 1, 5, 5⟩ 9 (by norm_num [tempo_processamento])⟩

/-! ## The padding/truncation claim -/

/-- C3: For every layout registry, every record code whose layout has N
fields, and every raw line: the accumulated base row has exactly N values;
when tokenization yields at most N tokens the row is the tokens followed by
empty strings for the missing trailing fields; when it yields at least N
tokens the row is the first N tokens, the extras silently truncated. -/
theorem claim_C3_pad_truncate (layouts : List (String × List String))
    (registro : String) (campos : List String) (raw : String)
    (hcl : layouts.lookup registro = some campos) :
    (pad_line layouts registro raw).length = campos.length
    ∧ ((parse_sped_line raw).length ≤ campos.length →
        pad_line layouts registro raw
          = parse_sped_line raw
            ++ List.replicate (campos.length - (parse_sped_line raw).length) "")
    ∧ (campos.length ≤ (parse_sped_line raw).length →
        pad_line layouts registro raw = (parse_sped_line raw).take campos.length) := by
  refine ⟨pad_line_length ⟨layouts, []⟩ registro campos raw hcl, ?_, ?_⟩
  · intro hle
    simp only [pad_line, hcl]
    by_cases hlt : (parse_sped_line raw).length < campos.length
    · rw [if_pos hlt]
      apply List.take_of_length_le
      simp only [List.length_append, List.length_replicate]
      omega
    · rw [if_neg hlt]
      have heq : (parse_sped_line raw).length = campos.length := by omega
      rw [List.take_of_length_le (le_of_eq heq), heq]
      simp
  · intro hge
    simp only [pad_line, hcl]
    rw [if_neg (by omega)]

/-- Witness for C3: the C195 layout has 3 fields; a 2-token line is padded
with one empty string, and a 5-token line is truncated to its first 3
tokens. -/
theorem claim_C3_pad_truncate_witness :
    LAYOUTS_L.lookup "C195" = some ["REG", "COD_OBS", "TXT_COMPL"]
    ∧ pad_line LAYOUTS_L "C195" "|C195|obs|"
        = ["C195", "obs"] ++ List.replicate 1 ""
    ∧ pad_line LAYOUTS_L "C195" "|C195|obs|t|x|y|"
        = ["C195", "obs", "t", "x", "y"].take 3 :=
  ⟨by decide,
   by
    have h := (claim_C3_pad_truncate LAYOUTS_L "C195" ["REG", "COD_OBS", "TXT_COMPL"]
      "|C195|obs|" (by decide)).2.1 (by decide)
    rw [h]
    decide,
   by
    have h := (claim_C3_pad_truncate LAYOUTS_L "C195" ["REG", "COD_OBS", "TXT_COMPL"]
      "|C195|obs|t|x|y|" (by decide)).2.2 (by decide)
    rw [h]
    decide⟩

/-! ## Metrics counting over a lenient pass, and the error-handling claims -/

theorem lenientRun_processed (cfg : SpedConfig) (lines : List String) :
    ∀ (n : Nat) (s : ParserState),
      (lenientRun cfg lines n s).processedLines
        = s.processedLines
          + lines.countP (fun l => !(isSkippedLine l) && decide (5 ≤ l.length)) := by
  induction lines with
  | nil => intro n s; simp [lenientRun]
  | cons raw rest ih =>
    intro n s
    rw [List.countP_cons]
    by_cases hskip : isSkippedLine raw = true
    · rw [lenientRun, if_pos hskip, ih]
      simp [hskip]
    · rw [lenientRun, if_neg hskip]
      by_cases hshort : raw.length < 5
      · rw [process_line_short cfg raw n s hshort, ih]
        have : (!(isSkippedLine raw) && decide (5 ≤ raw.length)) = false := by
          simp
          intro
          omega
        simp [increment_erro, this]
      · cases hk : (cfg.layouts.lookup (lineCode raw)).isSome with
        | true =>
          rw [process_line_known cfg raw n s hshort hk, ih]
          have : (!(isSkippedLine raw) && decide (5 ≤ raw.length)) = true := by
            simp [hskip]
            omega
          simp [process_generic, increment_registro, this]
          omega
        | false =>
          rw [process_line_unknown cfg raw n s hshort hk, ih]
          have : (!(isSkippedLine raw) && decide (5 ≤ raw.length)) = true := by
            simp [hskip]
            omega
          simp [increment_registro, this]
          omega

theorem lenientRun_errors (cfg : SpedConfig) (lines : List String) :
    ∀ (n : Nat) (s : ParserState),
      (lenientRun cfg lines n s).errorLines
        = s.errorLines
          + lines.countP (fun l => !(isSkippedLine l) && decide (l.length < 5)) := by
  induction lines with
  | nil => intro n s; simp [lenientRun]
  | cons raw rest ih =>
    intro n s
    rw [List.countP_cons]
    by_cases hskip : isSkippedLine raw = true
    · rw [lenientRun, if_pos hskip, ih]
      simp [hskip]
    · rw [lenientRun, if_neg hskip]
      by_cases hshort : raw.length < 5
      · rw [process_line_short cfg raw n s hshort, ih]
        have : (!(isSkippedLine raw) && decide (raw.length < 5)) = true := by
          simp [hskip]
          omega
        simp [increment_erro, this]
        omega
      · have hfalse : (!(isSkippedLine raw) && decide (raw.length < 5)) = false := by
          simp
          intro
          omega
        cases hk : (cfg.layouts.lookup (lineCode raw)).isSome with
        | true =>
          rw [process_line_known cfg raw n s hshort hk, ih]
          simp [process_generic, increment_registro, hfalse]
        | false =>
          rw [process_line_unknown cfg raw n s hshort hk, ih]
          simp [increment_registro, hfalse]

theorem process_line_isOk (cfg : SpedConfig) (raw : String) (n : Nat) (s : ParserState)
    (h : ¬ raw.length < 5) : ∃ s', process_line cfg raw n s = .ok s' := by
  cases hk : (cfg.layouts.lookup (lineCode raw)).isSome with
  | true => exact ⟨_, process_line_known cfg raw n s h hk⟩
  | false => exact ⟨_, process_line_unknown cfg raw n s h hk⟩

theorem parseLoop_strict_first_error (cfg : SpedConfig) (good : List String) :
    ∀ (n : Nat) (s : ParserState) (bad : String) (rest : List String),
      (∀ l ∈ good, isSkippedLine l = true ∨ 5 ≤ l.length) →
      isSkippedLine bad = false → bad.length < 5 →
      parseLoop cfg true (good ++ bad :: rest) n s
        = .error (mkParseError "Linha muito curta para conter registro válido"
            (some (n + good.length)) (some bad)) := by
  induction good with
  | nil =>
    intro n s bad rest _ hb hlen
    rw [List.nil_append, parseLoop, if_neg (by simp [hb]),
      process_line_short cfg bad n s hlen]
    simp
  | cons l good ih =>
    intro n s bad rest hg hb hlen
    have harith : n + (l :: good).length = (n + 1) + good.length := by
      simp
      omega
    rw [List.cons_append, parseLoop, harith]
    by_cases hskip : isSkippedLine l = true
    · rw [if_pos hskip]
      exact ih (n + 1) _ bad rest (fun x hx => hg x (List.mem_cons_of_mem _ hx)) hb hlen
    · rw [if_neg hskip]
      have hlong : 5 ≤ l.length := by
        rcases hg l (List.mem_cons_self _ _) with h | h
        · exact absurd h hskip
        · exact h
      obtain ⟨s', hpl⟩ := process_line_isOk cfg l n s (by omega)
      rw [hpl]
      exact ih (n + 1) s' bad rest (fun x hx => hg x (List.mem_cons_of_mem _ hx)) hb hlen

/-- C4: Processing a non-blank, pipe-prefixed line shorter than 5 characters
raises a `SpedParseError` carrying the line number and a content preview of
the line. In non-strict mode the pass always completes, the error is counted
in the metrics (one per such line), and parsing continues with the next
line; in strict mode the first such error aborts the pass and propagates to
the caller with the offending line's number and content. -/
theorem claim_C4_short_line_error (cfg : SpedConfig) :
    (∀ (raw : String) (n : Nat) (s : ParserState),
        isBlank raw = false → startsWithPipe raw = true → raw.length < 5 →
        process_line cfg raw (n + 1) s
            = .error (mkParseError "Linha muito curta para conter registro válido"
                (some (n + 1)) (some raw))
          ∧ (mkParseError "Linha muito curta para conter registro válido"
              (some (n + 1)) (some raw)).lineNumber = some (n + 1)
          ∧ (mkParseError "Linha muito curta para conter registro válido"
              (some (n + 1)) (some raw)).lineContent = some raw
          ∧ (mkParseError "Linha muito curta para conter registro válido"
              (some (n + 1)) (some raw)).message
              = "Linha " ++ toString (n + 1) ++ ": "
                ++ "Linha muito curta para conter registro válido"
                ++ "\nConteúdo: " ++ pyPreview raw)
    ∧ (∀ lines : List String, parse cfg false lines
        = .ok (lenientRun cfg lines 1 (initState lines.length)))
    ∧ (∀ (lines : List String) (s : ParserState), parse cfg false lines = .ok s →
        s.errorLines
          = lines.countP (fun l => !(isSkippedLine l) && decide (l.length < 5)))
    ∧ (∀ (good : List String) (bad : String) (rest : List String),
        (∀ l ∈ good, isSkippedLine l = true ∨ 5 ≤ l.length) →
        isBlank bad = false → startsWithPipe bad = true → bad.length < 5 →
        parse cfg true (good ++ bad :: rest)
          = .error (mkParseError "Linha muito curta para conter registro válido"
              (some (good.length + 1)) (some bad))) := by
  refine ⟨?_, fun lines => parse_false_eq cfg lines, ?_, ?_⟩
  · intro raw n s hblank hpipe hlen
    have hraw : raw ≠ "" := by
      intro h
      rw [h] at hpipe
      simp [startsWithPipe] at hpipe
    refine ⟨process_line_short cfg raw (n + 1) s hlen, rfl, rfl, ?_⟩
    simp [mkParseError, hraw]
  · intro lines s hparse
    rw [parse_false_eq] at hparse
    rw [← Except.ok.inj hparse, lenientRun_errors]
    simp [initState]
  · intro good bad rest hg hblank hpipe hlen
    have h := parseLoop_strict_first_error cfg good 1
      (initState (good ++ bad :: rest).length) bad rest hg
      (by simp [isSkippedLine, hblank, hpipe]) hlen
    rw [show good.length + 1 = 1 + good.length from by omega]
    exact h

set_option maxRecDepth 100000 in
/-- Witness for C4: in `testLines` the malformed line `"|x"` sits at line 3
after two harmless lines; the lenient pass completes with exactly one
counted error, while the strict pass aborts with a `SpedParseError` carrying
line number 3 and the offending content. -/
theorem claim_C4_short_line_error_witness :
    process_line defaultCfg "|x" (2 + 1) (initState 9)
        = .error (mkParseError "Linha muito curta para conter registro válido"
            (some (2 + 1)) (some "|x"))
    ∧ parse defaultCfg false testLines
        = .ok (lenientRun defaultCfg testLines 1 (initState testLines.length))
    ∧ testState.errorLines
        = testLines.countP (fun l => !(isSkippedLine l) && decide (l.length < 5))
    ∧ testState.errorLines = 1
    ∧ parse defaultCfg true (["|C170|early|", ""] ++ "|x"
          :: ["|ZZZZ|q|", "|C100|a|", "|C170|x|", "|C170|y|", "|C100|b|", "|C170|z|"])
        = .error (mkParseError "Linha muito curta para conter registro válido"
            (some (["|C170|early|", ""].length + 1)) (some "|x")) :=
  ⟨((claim_C4_short_line_error defaultCfg).1 "|x" 2 (initState 9)
      (by decide) (by decide) (by decide)).1,
   (claim_C4_short_line_error defaultCfg).2.1 testLines,
   (claim_C4_short_line_error defaultCfg).2.2.1 testLines testState
     (parse_false_eq defaultCfg testLines),
   by decide,
   (claim_C4_short_line_error defaultCfg).2.2.2 ["|C170|early|", ""] "|x"
     ["|ZZZZ|q|", "|C100|a|", "|C170|x|", "|C170|y|", "|C100|b|", "|C170|z|"]
     (by decide) (by decide) (by decide) (by decide)⟩

/-! ## The processed-lines metric claim -/

/-- C9 is false on the code: `_process_line` counts the record code in the
metrics *before* checking whether it is in the layout registry, so a line
with an unknown record code is still counted as processed. On the one-line
file `["|ZZZZ|1|"]` the code `ZZZZ` is not in the layouts, no line is
recognized, yet `processed_lines` finishes at 1 where the claim demands 0. -/
theorem claim_C9_counterexample :
    parse defaultCfg false unknownCodeLines = .ok unknownCodeState
    ∧ unknownCodeState.processedLines = 1
    ∧ recLines defaultCfg unknownCodeLines = []
    ∧ lineCode "|ZZZZ|1|" = "ZZZZ"
    ∧ LAYOUTS_L.lookup "ZZZZ" = none :=
  ⟨parse_false_eq defaultCfg unknownCodeLines, by decide, by decide, by decide, by decide⟩

/-- C9 (amended): after a lenient pass, the processed-lines counter equals
the number of non-skipped lines long enough to carry a record code (length
at least 5) — whether or not the code exists in the layout registry; lines
with unknown record codes are counted as processed too, only error lines
and skipped lines are excluded. -/
theorem claim_C9_processed_lines (cfg : SpedConfig) (lines : List String)
    (s : ParserState) (hparse : parse cfg false lines = .ok s) :
    s.processedLines
      = lines.countP (fun l => !(isSkippedLine l) && decide (5 ≤ l.length)) := by
  rw [parse_false_eq] at hparse
  rw [← Except.ok.inj hparse, lenientRun_processed]
  simp [initState]

/-- Witness for C9 (amended): on `testLines`, seven of the nine lines are
non-skipped and at least 5 characters long (including the unknown-code
line), and the processed-lines counter finishes at 7. -/
theorem claim_C9_processed_lines_witness :
    parse defaultCfg false testLines = .ok testState
    ∧ testState.processedLines
        = testLines.countP (fun l => !(isSkippedLine l) && decide (5 ≤ l.length))
    ∧ testState.processedLines = 7 :=
  ⟨parse_false_eq defaultCfg testLines,
   claim_C9_processed_lines defaultCfg testLines testState
     (parse_false_eq defaultCfg testLines),
   by decide⟩

/-! ## Counting lemmas for the join engine -/

theorem set_get_eq {α : Type} (l : List α) :
    ∀ (i : Nat) (v : α), l[i]? = some v → l.set i v = l := by
  induction l with
  | nil => intro i v h; simp at h
  | cons a t ih =>
    intro i v h
    cases i with
    | zero =>
      simp only [List.getElem?_cons_zero, Option.some.injEq] at h
      rw [List.set]
      rw [h]
    | succ i =>
      simp only [List.getElem?_cons_succ] at h
      rw [List.set]
      rw [ih i v h]

theorem getCell_getD (cols : List String) (row : List (Option String)) (c : String)
    (i : Nat) (hi : cols.findIdx? (fun x => decide (x = c)) = some i) :
    getCell cols row c = (row[i]?).getD none := by
  rw [getCell, hi]

theorem castColStr_id (df : DataFrame) (key : String) (hRect : df.Rect)
    (hK : KeyClean df key) : castColStr df key = df := by
  rw [castColStr]
  split
  · rename_i hcont
    apply dfEq
    · rfl
    · show df.rows.map (mapAtCol df.cols key astypeStr) = df.rows
      have : ∀ r ∈ df.rows, mapAtCol df.cols key astypeStr r = r := by
        intro r hr
        cases hfi : df.cols.findIdx? (fun x => decide (x = key)) with
        | none => rw [mapAtCol, hfi]
        | some i =>
          rw [mapAtCol, hfi]
          show r.set i (astypeStr ((r[i]?).getD none)) = r
          have hilen : i < df.cols.length :=
            (List.findIdx?_eq_some_iff_findIdx_eq.mp hfi).1
          have hrlen : r.length = df.cols.length := hRect r hr
          obtain ⟨v, hv⟩ := Option.isSome_iff_exists.mp (hK r hr)
          rw [getCell_getD df.cols r key i hfi] at hv
          cases hri : r[i]? with
          | none =>
            rw [hri] at hv
            simp at hv
          | some cell =>
            rw [hri] at hv
            simp only [Option.getD_some] at hv
            simp only [Option.getD_some, hv, astypeStr]
            exact set_get_eq r i (some v) (by rw [hri, hv])
      calc df.rows.map (mapAtCol df.cols key astypeStr)
          = df.rows.map id := List.map_congr_left this
        _ = df.rows := List.map_id _
  · rfl

theorem map_const_length {α β : Type} (l : List α) (b : β) :
    l.map (fun _ => b) = List.replicate l.length b :=
  List.map_const l b

theorem leftMerge_length (L R : DataFrame) (key : String) :
    (leftMerge L R key).rows.length
      = ((keyVals L key).map (fun k => max 1 (matchCount R key k))).sum := by
  rw [leftMerge_rows, List.length_flatMap, keyVals, List.map_map]
  congr 1
  apply List.map_congr_left
  intro r _
  simp only [Function.comp]
  cases hms : R.rows.filter
      (fun rr => cellKeyEq (getCell L.cols r key) (getCell R.cols rr key)) with
  | nil =>
    simp only [hms, List.length_singleton, matchCount, List.length_nil]
    rfl
  | cons m ms =>
    simp only [hms, List.length_map, matchCount, List.length_cons]
    omega

theorem getCell_append_left (cols₁ cols₂ : List String) (r extra : List (Option String))
    (key : String) (hkey : key ∈ cols₁) (hlen : r.length = cols₁.length) :
    getCell (cols₁ ++ cols₂) (r ++ extra) key = getCell cols₁ r key := by
  rw [getCell, getCell]
  have hsome : (cols₁.findIdx? (fun x => decide (x = key))).isSome := by
    rw [List.findIdx?_isSome]
    exact List.any_eq_true.mpr ⟨key, hkey, by simp⟩
  obtain ⟨i, hi⟩ := Option.isSome_iff_exists.mp hsome
  have hilen : i < cols₁.length := (List.findIdx?_eq_some_iff_findIdx_eq.mp hi).1
  rw [List.findIdx?_append, hi]
  show (((r ++ extra)[i]?).getD none) = ((r[i]?).getD none)
  rw [List.getElem?_append]
  rw [if_pos (by omega)]

theorem getCell_cons_self (key : String) (cols : List String) (x : Option String)
    (xs : List (Option String)) : getCell (key :: cols) (x :: xs) key = x := by
  rw [getCell, List.findIdx?_cons]
  rw [if_pos (by simp)]
  simp

theorem matchCount_childToMerge (code : String) (child : DataFrame) (key : String)
    (k : Option String) :
    matchCount (childToMerge code child key) key k = matchCount child key k := by
  rw [matchCount, matchCount]
  show (List.filter _ (child.rows.map _)).length = _
  rw [List.filter_map, List.length_map]
  congr 1
  apply List.filter_congr
  intro rr _
  simp only [Function.comp, childToMerge]
  rw [getCell_cons_self]

theorem leftMerge_keyVals (L R : DataFrame) (key : String) (hRect : L.Rect)
    (hkey : key ∈ L.cols) :
    keyVals (leftMerge L R key) key
      = L.rows.flatMap (fun r =>
          List.replicate (max 1 (matchCount R key (getCell L.cols r key)))
            (getCell L.cols r key)) := by
  rw [keyVals, leftMerge_rows, List.map_flatMap]
  apply flatMap_congr_mem
  intro r hr
  have hlen : r.length = L.cols.length := hRect r hr
  cases hms : R.rows.filter
      (fun rr => cellKeyEq (getCell L.cols r key) (getCell R.cols rr key)) with
  | nil =>
    have hmc : matchCount R key (getCell L.cols r key) = 0 := by
      rw [matchCount, hms]
      rfl
    simp only [hms, hmc, List.map_cons, List.map_nil]
    rw [show max 1 0 = 1 from rfl, List.replicate_one]
    congr 1
    rw [leftMerge_cols]
    exact getCell_append_left L.cols _ r _ key hkey hlen
  | cons m ms =>
    have hmc : matchCount R key (getCell L.cols r key) = ms.length + 1 := by
      rw [matchCount, hms]
      simp
    simp only [hms, hmc, List.map_map]
    have hconst : ∀ rr ∈ m :: ms,
        ((fun row => getCell (leftMerge L R key).cols row key) ∘
          (fun rr => r ++ (R.cols.filter (fun c => decide (c ≠ key))).map
            (fun c => getCell R.cols rr c))) rr
          = getCell L.cols r key := by
      intro rr _
      simp only [Function.comp]
      rw [leftMerge_cols]
      exact getCell_append_left L.cols _ r _ key hkey hlen
    rw [List.map_congr_left hconst, map_const_length, List.length_cons]
    rw [show max 1 (ms.length + 1) = ms.length + 1 by omega]

theorem sum_map_flatMap_replicate {α β : Type} (l : List α) (n : α → Nat) (k : α → β)
    (f : β → Nat) :
    ((l.flatMap (fun r => List.replicate (n r) (k r))).map f).sum
      = (l.map (fun r => n r * f (k r))).sum := by
  induction l with
  | nil => rfl
  | cons a t ih =>
    rw [List.flatMap_cons, List.map_append, List.sum_append, ih, List.map_cons,
      List.sum_cons]
    congr 1
    rw [List.map_replicate, List.sum_replicate]
    simp

theorem filter_ne_key_cons (key : String) (l : List String) (h : ∀ c ∈ l, c ≠ key) :
    (key :: l).filter (fun c => decide (c ≠ key)) = l := by
  rw [List.filter_cons]
  rw [if_neg (by simp)]
  exact List.filter_eq_self.mpr (fun c hc => by simpa using h c hc)

theorem consolidate_group_new_none (dfs : List (String × DataFrame)) (pcode : String)
    (ccs : List String) (key : String) (h : dfs.lookup pcode = none) :
    consolidate_group_new dfs pcode ccs key = emptyDF := by
  rw [consolidate_group_new, h]

theorem consolidate_group_new_empty (dfs : List (String × DataFrame)) (pcode : String)
    (ccs : List String) (key : String) (pdf : DataFrame)
    (h : dfs.lookup pcode = some pdf) (h2 : pdf.rows = []) :
    consolidate_group_new dfs pcode ccs key = emptyDF := by
  rw [consolidate_group_new, h]
  show (if pdf.isEmptyDF then emptyDF
    else ccs.foldl (consolidateChildStep dfs key) (castColStr pdf key)) = emptyDF
  rw [if_pos (show pdf.isEmptyDF = true by simp [DataFrame.isEmptyDF, h2])]

theorem consolidate_group_new_nonempty (dfs : List (String × DataFrame)) (pcode : String)
    (ccs : List String) (key : String) (pdf : DataFrame)
    (h : dfs.lookup pcode = some pdf) (hne : pdf.isEmptyDF = false) :
    consolidate_group_new dfs pcode ccs key
      = ccs.foldl (consolidateChildStep dfs key) (castColStr pdf key) := by
  rw [consolidate_group_new, h]
  show (if pdf.isEmptyDF then emptyDF
    else ccs.foldl (consolidateChildStep dfs key) (castColStr pdf key)) = _
  rw [if_neg (show ¬ pdf.isEmptyDF = true by simp [hne])]

theorem consolidateChildStep_none (dfs : List (String × DataFrame)) (key : String)
    (result : DataFrame) (code : String) (h : dfs.lookup code = none) :
    consolidateChildStep dfs key result code = result := by
  rw [consolidateChildStep, h]

theorem consolidateChildStep_empty (dfs : List (String × DataFrame)) (key : String)
    (result : DataFrame) (code : String) (child : DataFrame)
    (h : dfs.lookup code = some child) (h2 : child.rows = []) :
    consolidateChildStep dfs key result code = result := by
  rw [consolidateChildStep, h]
  show (if child.isEmptyDF then result
    else if child.cols.contains key then
      (if (keepColsOf (castColStr child key) key).isEmpty then result
       else leftMerge result (childToMerge code (castColStr child key) key) key)
    else result) = result
  rw [if_pos (show child.isEmptyDF = true by simp [DataFrame.isEmptyDF, h2])]

theorem consolidateChildStep_nokey (dfs : List (String × DataFrame)) (key : String)
    (result : DataFrame) (code : String) (child : DataFrame)
    (h : dfs.lookup code = some child) (h2 : child.cols.contains key = false) :
    consolidateChildStep dfs key result code = result := by
  rw [consolidateChildStep, h]
  show (if child.isEmptyDF then result
    else if child.cols.contains key then
      (if (keepColsOf (castColStr child key) key).isEmpty then result
       else leftMerge result (childToMerge code (castColStr child key) key) key)
    else result) = result
  by_cases he : child.isEmptyDF = true
  · rw [if_pos he]
  · rw [if_neg he, if_neg (show ¬ child.cols.contains key = true by
      rw [h2]; exact Bool.false_ne_true)]

theorem consolidateChildStep_merge (dfs : List (String × DataFrame)) (key : String)
    (result : DataFrame) (code : String) (child : DataFrame)
    (h : dfs.lookup code = some child) (hne : child.isEmptyDF = false)
    (hkey : child.cols.contains key = true)
    (hRect : child.Rect) (hK : KeyClean child key)
    (hkeep : (keepColsOf child key).isEmpty = false) :
    consolidateChildStep dfs key result code
      = leftMerge result (childToMerge code child key) key := by
  rw [consolidateChildStep, h]
  show (if child.isEmptyDF then result
    else if child.cols.contains key then
      (if (keepColsOf (castColStr child key) key).isEmpty then result
       else leftMerge result (childToMerge code (castColStr child key) key) key)
    else result) = _
  rw [castColStr_id child key hRect hK]
  rw [if_neg (by simp [hne]), if_pos hkey, if_neg (by simp [hkeep])]

/-- C6: For every table mapping whose parent and two child tables are well
formed (rectangular, nonempty, join key present and never null, prefixed
child columns distinct from the key), the consolidation engine's successive
left outer joins multiply per parent row: the output row count is the sum
over parent rows of (max 1 matches-in-A) × (max 1 matches-in-B), so a parent
row with exactly 2 matches in child A and 3 in child B contributes exactly
2 × 3 = 6 output rows; the output columns are the parent's columns followed
by each child's kept columns under their prefixed names; and a parent row
with zero matches in a child table is preserved as one row padded with nulls
for that child's columns. -/
theorem claim_C6_join_explosion
    (dfs : List (String × DataFrame)) (pcode codeA codeB key : String)
    (pdf childA childB : DataFrame)
    (hp : dfs.lookup pcode = some pdf)
    (ha : dfs.lookup codeA = some childA)
    (hb : dfs.lookup codeB = some childB)
    (hpne : pdf.isEmptyDF = false)
    (hane : childA.isEmptyDF = false)
    (hbne : childB.isEmptyDF = false)
    (hpRect : pdf.Rect) (hpK : KeyClean pdf key) (hkey : key ∈ pdf.cols)
    (haRect : childA.Rect) (haK : KeyClean childA key)
    (hbRect : childB.Rect) (hbK : KeyClean childB key)
    (haKey : childA.cols.contains key = true)
    (hbKey : childB.cols.contains key = true)
    (haKeep : (keepColsOf childA key).isEmpty = false)
    (hbKeep : (keepColsOf childB key).isEmpty = false)
    (haNoCap : ∀ c ∈ keepColsOf childA key, ¬(codeA ++ "_" ++ c = key))
    (hbNoCap : ∀ c ∈ keepColsOf childB key, ¬(codeB ++ "_" ++ c = key)) :
    (consolidate_group_new dfs pcode [codeA, codeB] key).rows.length
        = (pdf.rows.map (fun r =>
            max 1 (matchCount childA key (getCell pdf.cols r key))
              * max 1 (matchCount childB key (getCell pdf.cols r key)))).sum
      ∧ (consolidate_group_new dfs pcode [codeA, codeB] key).cols
        = pdf.cols ++ (keepColsOf childA key).map (fun c => codeA ++ "_" ++ c)
            ++ (keepColsOf childB key).map (fun c => codeB ++ "_" ++ c)
      ∧ ∀ r ∈ pdf.rows, matchCount childA key (getCell pdf.cols r key) = 0 →
          (r ++ List.replicate (keepColsOf childA key).length none)
            ∈ (consolidate_group_new dfs pcode [codeA] key).rows := by
  have hcast : castColStr pdf key = pdf := castColStr_id pdf key hpRect hpK
  have hfA : (childToMerge codeA childA key).cols.filter (fun c => decide (c ≠ key))
      = (keepColsOf childA key).map (fun c => codeA ++ "_" ++ c) := by
    show ((key :: (keepColsOf childA key).map (fun c => codeA ++ "_" ++ c)).filter
      (fun c => decide (c ≠ key))) = _
    apply filter_ne_key_cons
    intro c hc
    obtain ⟨c0, hc0, rfl⟩ := List.mem_map.mp hc
    exact haNoCap c0 hc0
  have hfB : (childToMerge codeB childB key).cols.filter (fun c => decide (c ≠ key))
      = (keepColsOf childB key).map (fun c => codeB ++ "_" ++ c) := by
    show ((key :: (keepColsOf childB key).map (fun c => codeB ++ "_" ++ c)).filter
      (fun c => decide (c ≠ key))) = _
    apply filter_ne_key_cons
    intro c hc
    obtain ⟨c0, hc0, rfl⟩ := List.mem_map.mp hc
    exact hbNoCap c0 hc0
  have hcgn2 : consolidate_group_new dfs pcode [codeA, codeB] key
      = leftMerge (leftMerge pdf (childToMerge codeA childA key) key)
          (childToMerge codeB childB key) key := by
    rw [consolidate_group_new_nonempty dfs pcode [codeA, codeB] key pdf hp hpne, hcast,
      List.foldl_cons, List.foldl_cons, List.foldl_nil,
      consolidateChildStep_merge dfs key pdf codeA childA ha hane haKey haRect haK haKeep,
      consolidateChildStep_merge dfs key _ codeB childB hb hbne hbKey hbRect hbK hbKeep]
  refine ⟨?_, ?_, ?_⟩
  · rw [hcgn2, leftMerge_length,
      leftMerge_keyVals pdf (childToMerge codeA childA key) key hpRect hkey]
    simp only [sum_map_flatMap_replicate]
    congr 1
    apply List.map_congr_left
    intro r _
    rw [matchCount_childToMerge, matchCount_childToMerge]
  · rw [hcgn2, leftMerge_cols, leftMerge_cols, hfA, hfB]
  · intro r hr hmc
    have hcgn1 : consolidate_group_new dfs pcode [codeA] key
        = leftMerge pdf (childToMerge codeA childA key) key := by
      rw [consolidate_group_new_nonempty dfs pcode [codeA] key pdf hp hpne, hcast,
        List.foldl_cons, List.foldl_nil,
        consolidateChildStep_merge dfs key pdf codeA childA ha hane haKey haRect haK haKeep]
    rw [hcgn1, leftMerge_rows]
    apply List.mem_flatMap.mpr
    refine ⟨r, hr, ?_⟩
    have hms0 : matchCount (childToMerge codeA childA key) key (getCell pdf.cols r key)
        = 0 := by
      rw [matchCount_childToMerge, hmc]
    rw [matchCount] at hms0
    have hms := List.length_eq_zero.mp hms0
    simp only [hms]
    apply List.mem_singleton.mpr
    rw [hfA, map_const_length, List.length_map]

set_option maxRecDepth 8000 in
/-- Witness for C6: on the concrete tables, the one parent row with key "0"
matches 2 rows of child A200 and 3 rows of child B300, and the consolidated
output has exactly 2 × 3 = 6 rows under the parent columns followed by the
prefixed child columns. -/
theorem claim_C6_join_explosion_witness :
    (consolidate_group_new wDfs "P100" ["A200", "B300"] "K").rows.length = 6
  ∧ (consolidate_group_new wDfs "P100" ["A200", "B300"] "K").cols
      = ["REG", "K", "PV", "A200_AV", "B300_BV"] := by
  have h := claim_C6_join_explosion wDfs "P100" "A200" "B300" "K" wParent wChildA wChildB
    (by decide) (by decide) (by decide) (by decide) (by decide) (by decide)
    (by rw [DataFrame.Rect]; decide) (by rw [KeyClean]; decide) (by decide)
    (by rw [DataFrame.Rect]; decide) (by rw [KeyClean]; decide)
    (by rw [DataFrame.Rect]; decide) (by rw [KeyClean]; decide)
    (by decide) (by decide) (by decide) (by decide) (by decide) (by decide)
  refine ⟨?_, ?_⟩
  · rw [h.1]
    decide
  · rw [h.2.1]
    decide

/-- C7: Consolidating a group whose parent table is absent or has zero rows
returns the empty table; a child table that is absent, empty, or lacking the
parent-index join column is skipped, leaving the running result — and hence
the whole consolidated output — unchanged by that child. -/
theorem claim_C7_skip_tolerance :
    (∀ (dfs : List (String × DataFrame)) (pcode : String) (ccs : List String)
        (key : String), dfs.lookup pcode = none →
        consolidate_group_new dfs pcode ccs key = emptyDF)
  ∧ (∀ (dfs : List (String × DataFrame)) (pcode : String) (ccs : List String)
        (key : String) (pdf : DataFrame), dfs.lookup pcode = some pdf →
        pdf.rows = [] → consolidate_group_new dfs pcode ccs key = emptyDF)
  ∧ (∀ (dfs : List (String × DataFrame)) (key : String) (result : DataFrame)
        (code : String), dfs.lookup code = none →
        consolidateChildStep dfs key result code = result)
  ∧ (∀ (dfs : List (String × DataFrame)) (key : String) (result : DataFrame)
        (code : String) (child : DataFrame), dfs.lookup code = some child →
        child.rows = [] → consolidateChildStep dfs key result code = result)
  ∧ (∀ (dfs : List (String × DataFrame)) (key : String) (result : DataFrame)
        (code : String) (child : DataFrame), dfs.lookup code = some child →
        child.cols.contains key = false →
        consolidateChildStep dfs key result code = result)
  ∧ (∀ (dfs : List (String × DataFrame)) (pcode : String) (ccs₁ ccs₂ : List String)
        (code : String) (key : String), dfs.lookup code = none →
        consolidate_group_new dfs pcode (ccs₁ ++ code :: ccs₂) key
          = consolidate_group_new dfs pcode (ccs₁ ++ ccs₂) key) := by
  refine ⟨consolidate_group_new_none, consolidate_group_new_empty,
    consolidateChildStep_none, consolidateChildStep_empty,
    consolidateChildStep_nokey, ?_⟩
  intro dfs pcode ccs₁ ccs₂ code key h
  cases hp : dfs.lookup pcode with
  | none =>
    rw [consolidate_group_new_none dfs pcode _ key hp,
      consolidate_group_new_none dfs pcode _ key hp]
  | some pdf =>
    by_cases hemp : pdf.isEmptyDF = true
    · have h2 : pdf.rows = [] := by
        rw [DataFrame.isEmptyDF] at hemp
        exact List.isEmpty_iff.mp hemp
      rw [consolidate_group_new_empty dfs pcode _ key pdf hp h2,
        consolidate_group_new_empty dfs pcode _ key pdf hp h2]
    · have hne : pdf.isEmptyDF = false := by simpa using hemp
      rw [consolidate_group_new_nonempty dfs pcode _ key pdf hp hne,
        consolidate_group_new_nonempty dfs pcode _ key pdf hp hne,
        List.foldl_append, List.foldl_append, List.foldl_cons,
        consolidateChildStep_none dfs key _ code h]

/-- Witness for C7: looking up the absent parent code "Q999" consolidates to
the empty table, and an absent child code leaves the running parent table
untouched. -/
theorem claim_C7_skip_tolerance_witness :
    consolidate_group_new wDfs "Q999" ["A200"] "K" = emptyDF
  ∧ consolidateChildStep wDfs "K" wParent "Q999" = wParent :=
  ⟨claim_C7_skip_tolerance.1 wDfs "Q999" ["A200"] "K" (by decide),
   claim_C7_skip_tolerance.2.2.1 wDfs "K" wParent "Q999" (by decide)⟩

theorem addUnique_of_present (ra : RA) (code : String) (t : ActionType) (k col : String)
    (h : hasTypeKey (getActs ra code) t k = true) :
    addUnique ra code t k col = ra := by
  have hsome : (ra.lookup code).isSome = true := by
    cases hl : ra.lookup code with
    | some acts => rfl
    | none =>
      rw [getActs, hl] at h
      simp [hasTypeKey] at h
  have hens : raEnsure ra code = ra := by rw [raEnsure, if_pos hsome]
  rw [addUnique]
  show (if hasTypeKey (getActs (raEnsure ra code) code) t k then raEnsure ra code
    else raAppend (raEnsure ra code) code ⟨t, k, col⟩) = ra
  rw [hens, if_pos h]

theorem addGroupActions_of_satisfied (ra : RA) (g : GroupInfo) (h : Satisfied g ra) :
    addGroupActions ra g = ra := by
  obtain ⟨h1, h2, h3, h4⟩ := h
  rw [addGroupActions]
  rw [addUnique_of_present _ _ _ _ _ h1]
  have e2 : (if g.header ≠ "" ∧ g.header ≠ g.parent then
      addUnique ra g.parent .read (pyLower g.header) g.headerIdxName else ra) = ra := by
    split_ifs with hc
    · exact addUnique_of_present _ _ _ _ _ (h2 hc)
    · rfl
  rw [e2]
  have e3 : (if g.header ≠ "" then
      addUnique ra g.header .increment (pyLower g.header) g.headerIdxName else ra)
      = ra := by
    split_ifs with hc
    · exact addUnique_of_present _ _ _ _ _ (h3 hc)
    · rfl
  rw [e3]
  have hfold : ∀ (cs : List String),
      (∀ c ∈ cs, hasTypeKey (getActs ra c) .read (pyLower g.parent) = true) →
      cs.foldl (fun ra child =>
        addUnique ra child .read (pyLower g.parent) g.parentIdxName) ra = ra := by
    intro cs
    induction cs with
    | nil => intro _; rfl
    | cons c ct ih =>
      intro hcs
      rw [List.foldl_cons,
        addUnique_of_present _ _ _ _ _ (hcs c (List.mem_cons_self _ _))]
      exact ih (fun c' hc' => hcs c' (List.mem_cons_of_mem _ hc'))
  exact hfold g.children h4

theorem satisfied_deriveRecordActions (G : List GroupInfo) (g : GroupInfo) (hg : g ∈ G) :
    Satisfied g (deriveRecordActions G) := by
  refine ⟨?_, ?_, ?_, ?_⟩
  · exact (hasTypeKey_deriveRecordActions G _ _ _).mpr ⟨g, hg, Or.inl ⟨rfl, rfl, rfl⟩⟩
  · intro hc
    exact (hasTypeKey_deriveRecordActions G _ _ _).mpr
      ⟨g, hg, Or.inr (Or.inl ⟨hc.1, hc.2, rfl, rfl, rfl⟩)⟩
  · intro hc
    exact (hasTypeKey_deriveRecordActions G _ _ _).mpr
      ⟨g, hg, Or.inr (Or.inr (Or.inl ⟨hc, rfl, rfl, rfl⟩))⟩
  · intro c hc
    exact (hasTypeKey_deriveRecordActions G _ _ _).mpr
      ⟨g, hg, Or.inr (Or.inr (Or.inr ⟨rfl, hc, rfl⟩))⟩

theorem deriveRecordActions_idem (G : List GroupInfo) :
    deriveRecordActions (G ++ G) = deriveRecordActions G := by
  rw [deriveRecordActions, List.foldl_append]
  show G.foldl addGroupActions (deriveRecordActions G) = deriveRecordActions G
  have hall : ∀ (H : List GroupInfo), (∀ g ∈ H, g ∈ G) →
      H.foldl addGroupActions (deriveRecordActions G) = deriveRecordActions G := by
    intro H
    induction H with
    | nil => intro _; rfl
    | cons g H ih =>
      intro hH
      rw [List.foldl_cons, addGroupActions_of_satisfied _ _
        (satisfied_deriveRecordActions G g (hH g (List.mem_cons_self _ _)))]
      exact ih (fun g' hg' => hH g' (List.mem_cons_of_mem _ hg'))
  exact hall G (fun g hg => hg)

/-- Counterexample to C8: the derived action map is not identical for every
iteration order of the groups. Two groups sharing the parent code "X100" but
naming different parent-index columns are permutations of one another, yet
the two iteration orders derive different maps — the emitted column name
follows whichever group is seen first. -/
theorem claim_C8_counterexample :
    [g8a, g8b].Perm [g8b, g8a]
    ∧ deriveRecordActions [g8a, g8b] ≠ deriveRecordActions [g8b, g8a] :=
  ⟨List.Perm.swap g8b g8a [], by decide⟩

/-- C8 (amended): the construction-time derivation deduplicates — no record
code's action list ever carries the same (type, key) pair twice — and it is
idempotent (deriving from the registry twice over changes nothing); group
iteration order cannot add or remove a derived (type, key) action, though the
auxiliary column name attached to an action may follow the order (see the
counterexample), so order-independence holds for the action set but not for
the full map. -/
theorem claim_C8_derivation_amended :
    (∀ (G : List GroupInfo) (code : String),
        NoDupTK (getActs (deriveRecordActions G) code))
  ∧ (∀ G : List GroupInfo, deriveRecordActions (G ++ G) = deriveRecordActions G)
  ∧ (∀ (G G' : List GroupInfo), G.Perm G' →
      ∀ (code : String) (t : ActionType) (k : String),
        hasTypeKey (getActs (deriveRecordActions G) code) t k
          = hasTypeKey (getActs (deriveRecordActions G') code) t k) := by
  refine ⟨fun G code => noDupInv_deriveRecordActions G code,
    deriveRecordActions_idem, ?_⟩
  intro G G' hperm code t k
  by_cases h : hasTypeKey (getActs (deriveRecordActions G) code) t k = true
  · rw [h]
    obtain ⟨g, hg, hrole⟩ := (hasTypeKey_deriveRecordActions G code t k).mp h
    exact ((hasTypeKey_deriveRecordActions G' code t k).mpr
      ⟨g, hperm.mem_iff.mp hg, hrole⟩).symm
  · have h' : ¬ hasTypeKey (getActs (deriveRecordActions G') code) t k = true := by
      intro hx
      obtain ⟨g, hg, hrole⟩ := (hasTypeKey_deriveRecordActions G' code t k).mp hx
      exact h ((hasTypeKey_deriveRecordActions G code t k).mpr
        ⟨g, hperm.mem_iff.mpr hg, hrole⟩)
    rw [Bool.not_eq_true] at h h'
    rw [h, h']

set_option maxRecDepth 8000 in
/-- Witness for the amended C8: the two orders of the counterexample's group
pair agree on the parent's derived increment action, and re-deriving over the
bundled GROUPS registry appended to itself reproduces the derived map
exactly. -/
theorem claim_C8_derivation_amended_witness :
    hasTypeKey (getActs (deriveRecordActions [g8a, g8b]) "X100") .increment
        (pyLower "X100")
      = hasTypeKey (getActs (deriveRecordActions [g8b, g8a]) "X100") .increment
        (pyLower "X100")
  ∧ deriveRecordActions (GROUPS_L ++ GROUPS_L) = deriveRecordActions GROUPS_L :=
  ⟨claim_C8_derivation_amended.2.2 [g8a, g8b] [g8b, g8a]
      (List.Perm.swap g8b g8a []) "X100" .increment (pyLower "X100"),
   claim_C8_derivation_amended.2.1 GROUPS_L⟩
